import Mathlib

/-!
Verification of the geometry core of a page-layout (PageXML) processing
library.  The C++ source operates on `cv::Point2f` values parsed from
`points` attributes; here the coordinates are modelled exactly by rational
numbers.  Machine floating-point is modelled by exact rational arithmetic;
every concrete input evaluated below is chosen so that the double-precision
computation of the source is exact and agrees with the rational one.
-/

/-- Model of `cv::Point2f`.  Coordinates are modelled by `ℚ`. -/
structure Point2f where
  x : ℚ
  y : ℚ
deriving DecidableEq, Repr

instance : Add Point2f := ⟨fun p q => ⟨p.x + q.x, p.y + q.y⟩⟩

instance : Sub Point2f := ⟨fun p q => ⟨p.x - q.x, p.y - q.y⟩⟩

instance : SMul ℚ Point2f := ⟨fun a p => ⟨a * p.x, a * p.y⟩⟩

theorem Point2f.add_def (p q : Point2f) : p + q = ⟨p.x + q.x, p.y + q.y⟩ := rfl

theorem Point2f.sub_def (p q : Point2f) : p - q = ⟨p.x - q.x, p.y - q.y⟩ := rfl

theorem Point2f.smul_def (a : ℚ) (p : Point2f) : a • p = ⟨a * p.x, a * p.y⟩ := rfl

/-- Model of `PageXML::pointsLimits` (PageXML.cc:712).  The C function takes
the four output variables by reference and returns without touching them when
the list is empty; this is modelled by passing the caller's current values in
and returning the (possibly unchanged) quadruple `(xmin, xmax, ymin, ymax)`.
The loop keeps four independent running extrema seeded with the first
point. -/
def pointsLimits (points : List Point2f) (xmin xmax ymin ymax : ℚ) : ℚ × ℚ × ℚ × ℚ :=
  match points with
  | [] => (xmin, xmax, ymin, ymax)
  | p0 :: _ =>
    (points.foldl (fun a p => min a p.x) p0.x,
     points.foldl (fun a p => max a p.x) p0.x,
     points.foldl (fun a p => min a p.y) p0.y,
     points.foldl (fun a p => max a p.y) p0.y)

/-- Model of `PageXML::pointsBBox` (PageXML.cc:735): clears the output, and
for a non-empty input pushes the four corners
`(xmin,ymin) (xmax,ymin) (xmax,ymax) (xmin,ymax)` of the limits. -/
def pointsBBox (points : List Point2f) : List Point2f :=
  match points with
  | [] => []
  | _ :: _ =>
    let l := pointsLimits points 0 0 0 0
    [⟨l.1, l.2.2.1⟩, ⟨l.2.1, l.2.2.1⟩, ⟨l.2.1, l.2.2.2⟩, ⟨l.1, l.2.2.2⟩]

/-- Model of `PageXML::isBBox` (PageXML.cc:761): exactly four points with
`p0.x = p3.x`, `p0.y = p1.y`, `p1.x = p2.x`, `p2.y = p3.y`. -/
def isBBox (points : List Point2f) : Bool :=
  match points with
  | [p0, p1, p2, p3] =>
    decide (p0.x = p3.x) && decide (p0.y = p1.y) && decide (p1.x = p2.x) && decide (p2.y = p3.y)
  | _ => false

/-- Model of C `fabs`. -/
def fabsQ (q : ℚ) : ℚ := if q < 0 then -q else q

/-- Model of `PageXML::intersection` (PageXML.cc:2256).  The C function
writes the intersection point through the reference `_ipoint` only after the
near-parallel test has passed; this is modelled by passing the caller's
current point in and returning it unchanged in the `false` case. -/
def intersection (l1p1 l1p2 l2p1 l2p2 : Point2f) (ipoint : Point2f) : Bool × Point2f :=
  let x := l2p1 - l1p1
  let direct1 := l1p2 - l1p1
  let direct2 := l2p2 - l2p1
  let cross := direct1.x * direct2.y - direct1.y * direct2.x
  if fabsQ cross < 1 / 100000000 then (false, ipoint)
  else
    let t1 := (x.x * direct2.y - x.y * direct2.x) / cross
    (true, l1p1 + t1 • direct1)

/-- Truncation of a rational toward zero, the semantics of C's conversion
from `double` to an integer type. -/
def truncQ (q : ℚ) : ℤ := if 0 ≤ q then ⌊q⌋ else ⌈q⌉

/-- The crop-window seed of `PageXML::crop` (PageXML.cc:1059-1065):
`cropW = ceil(xmax)-floor(xmin)+1`, `cropH = ceil(ymax)-floor(ymin)+1`,
`cropX = floor(xmin)`, `cropY = floor(ymin)`, with the four limit variables
zero-initialized as in the caller.  Result is `(cropX, cropY, cropW, cropH)`. -/
def cropInit (coords : List Point2f) : ℤ × ℤ × ℤ × ℤ :=
  let l := pointsLimits coords 0 0 0 0
  (⌊l.1⌋, ⌊l.2.2.1⌋, ⌈l.2.1⌉ - ⌊l.1⌋ + 1, ⌈l.2.2.2⌉ - ⌊l.2.2.1⌋ + 1)

/-- One margin component (PageXML.cc:1072): a value `< 1.0` is a fraction of
`max(cropW, cropH)`, otherwise it is absolute pixels. -/
def marginVal (maxWH : ℤ) (m : ℚ) : ℚ := if m < 1 then (maxWH : ℚ) * m else m

/-- The clamp `cropX = cropX < 0 ? 0 : cropX` (PageXML.cc:1074). -/
def clampLow (a : ℤ) : ℤ := if a < 0 then 0 else a

/-- The clamp `cropW = cropX+cropW-1 >= width ? width-cropX-1 : cropW`
(PageXML.cc:1080). -/
def clampSize (limit pos size : ℤ) : ℤ :=
  if limit ≤ pos + size - 1 then limit - pos - 1 else size

/-- The margin-expansion block of `PageXML::crop` (PageXML.cc:1067-1082),
applied to a window `r = (cropX, cropY, cropW, cropH)`.  `cropX -= ...` on an
`int` truncates the rational toward zero; the `size_t` accumulations of
`cropW`/`cropH` are modelled in `ℤ` (under the hypotheses of the theorems
below all these quantities are nonnegative, so `ℤ` agrees with the C
`size_t` arithmetic). -/
def cropMargin (m0 m1 : Point2f) (width height : ℤ) (r : ℤ × ℤ × ℤ × ℤ) : ℤ × ℤ × ℤ × ℤ :=
  let maxWH : ℤ := max r.2.2.1 r.2.2.2
  let cropX := clampLow (truncQ ((r.1 : ℚ) - marginVal maxWH m0.x))
  let cropY := clampLow (truncQ ((r.2.1 : ℚ) - marginVal maxWH m0.y))
  let cropW := truncQ (((r.2.2.1 + (r.1 - cropX) : ℤ) : ℚ) + marginVal maxWH m1.x)
  let cropH := truncQ (((r.2.2.2 + (r.2.1 - cropY) : ℤ) : ℚ) + marginVal maxWH m1.y)
  (cropX, cropY, clampSize width cropX cropW, clampSize height cropY cropH)

/-- The crop window computed by `PageXML::crop` for one matched polygon:
the seed window, expanded by the margin when one is given. -/
def cropWindow (coords : List Point2f) (margin : Option (Point2f × Point2f))
    (width height : ℤ) : ℤ × ℤ × ℤ × ℤ :=
  match margin with
  | none => cropInit coords
  | some m => cropMargin m.1 m.2 width height (cropInit coords)

/-! ### Folded extrema facts used for `pointsLimits` -/

theorem foldl_min_le_init (l : List ℚ) (a : ℚ) : l.foldl min a ≤ a := by
  induction l generalizing a with
  | nil => simp
  | cons p t ih => exact le_trans (ih (min a p)) (min_le_left _ _)

theorem foldl_min_le (l : List ℚ) (a : ℚ) : ∀ x ∈ l, l.foldl min a ≤ x := by
  induction l generalizing a with
  | nil => simp
  | cons p t ih =>
    intro x hx
    rcases List.mem_cons.mp hx with rfl | hx
    · exact le_trans (foldl_min_le_init t (min a x)) (min_le_right _ _)
    · exact ih (min a p) x hx

theorem foldl_min_mem (l : List ℚ) (a : ℚ) : l.foldl min a = a ∨ l.foldl min a ∈ l := by
  induction l generalizing a with
  | nil => exact Or.inl rfl
  | cons p t ih =>
    rcases ih (min a p) with h | h
    · rcases le_total a p with hap | hpa
      · exact Or.inl (by rw [List.foldl_cons, h, min_eq_left hap])
      · exact Or.inr (by rw [List.foldl_cons, h, min_eq_right hpa]; exact List.mem_cons_self _ _)
    · exact Or.inr (List.mem_cons_of_mem _ h)

theorem le_foldl_max_init (l : List ℚ) (a : ℚ) : a ≤ l.foldl max a := by
  induction l generalizing a with
  | nil => simp
  | cons p t ih => exact le_trans (le_max_left _ _) (ih (max a p))

theorem le_foldl_max (l : List ℚ) (a : ℚ) : ∀ x ∈ l, x ≤ l.foldl max a := by
  induction l generalizing a with
  | nil => simp
  | cons p t ih =>
    intro x hx
    rcases List.mem_cons.mp hx with rfl | hx
    · exact le_trans (le_max_right _ _) (le_foldl_max_init t (max a x))
    · exact ih (max a p) x hx

theorem foldl_max_mem (l : List ℚ) (a : ℚ) : l.foldl max a = a ∨ l.foldl max a ∈ l := by
  induction l generalizing a with
  | nil => exact Or.inl rfl
  | cons p t ih =>
    rcases ih (max a p) with h | h
    · rcases le_total a p with hap | hpa
      · exact Or.inr (by rw [List.foldl_cons, h, max_eq_right hap]; exact List.mem_cons_self _ _)
      · exact Or.inl (by rw [List.foldl_cons, h, max_eq_left hpa])
    · exact Or.inr (List.mem_cons_of_mem _ h)

/-- For a non-empty list, the quadruple computed by `pointsLimits` consists of
attained lower/upper bounds of the x respectively y coordinates. -/
theorem pointsLimits_bounds (points : List Point2f) (a b c d : ℚ) (hne : points ≠ []) :
    ((∃ p ∈ points, (pointsLimits points a b c d).1 = p.x) ∧
      ∀ p ∈ points, (pointsLimits points a b c d).1 ≤ p.x) ∧
    ((∃ p ∈ points, (pointsLimits points a b c d).2.1 = p.x) ∧
      ∀ p ∈ points, p.x ≤ (pointsLimits points a b c d).2.1) ∧
    ((∃ p ∈ points, (pointsLimits points a b c d).2.2.1 = p.y) ∧
      ∀ p ∈ points, (pointsLimits points a b c d).2.2.1 ≤ p.y) ∧
    ((∃ p ∈ points, (pointsLimits points a b c d).2.2.2 = p.y) ∧
      ∀ p ∈ points, p.y ≤ (pointsLimits points a b c d).2.2.2) := by
  match points with
  | [] => exact absurd rfl hne
  | p0 :: t =>
    have hfx : ∀ (f : Point2f → ℚ) (g : ℚ → ℚ → ℚ) (i : ℚ),
        (p0 :: t).foldl (fun acc p => g acc (f p)) i =
          ((p0 :: t).map f).foldl g i := by
      intro f g i
      rw [List.foldl_map]
    constructor
    · constructor
      · rcases foldl_min_mem ((p0 :: t).map Point2f.x) p0.x with h | h
        · exact ⟨p0, List.mem_cons_self _ _, by rw [pointsLimits]; simpa [hfx] using h⟩
        · obtain ⟨p, hp, hpx⟩ := List.mem_map.mp h
          exact ⟨p, hp, by rw [pointsLimits]; simp only [hfx]; rw [hpx]⟩
      · intro p hp
        rw [pointsLimits]
        simp only [hfx]
        exact foldl_min_le _ _ p.x (List.mem_map.mpr ⟨p, hp, rfl⟩)
    constructor
    · constructor
      · rcases foldl_max_mem ((p0 :: t).map Point2f.x) p0.x with h | h
        · exact ⟨p0, List.mem_cons_self _ _, by rw [pointsLimits]; simpa [hfx] using h⟩
        · obtain ⟨p, hp, hpx⟩ := List.mem_map.mp h
          exact ⟨p, hp, by rw [pointsLimits]; simp only [hfx]; rw [hpx]⟩
      · intro p hp
        rw [pointsLimits]
        simp only [hfx]
        exact le_foldl_max _ _ p.x (List.mem_map.mpr ⟨p, hp, rfl⟩)
    constructor
    · constructor
      · rcases foldl_min_mem ((p0 :: t).map Point2f.y) p0.y with h | h
        · exact ⟨p0, List.mem_cons_self _ _, by rw [pointsLimits]; simpa [hfx] using h⟩
        · obtain ⟨p, hp, hpy⟩ := List.mem_map.mp h
          exact ⟨p, hp, by rw [pointsLimits]; simp only [hfx]; rw [hpy]⟩
      · intro p hp
        rw [pointsLimits]
        simp only [hfx]
        exact foldl_min_le _ _ p.y (List.mem_map.mpr ⟨p, hp, rfl⟩)
    · constructor
      · rcases foldl_max_mem ((p0 :: t).map Point2f.y) p0.y with h | h
        · exact ⟨p0, List.mem_cons_self _ _, by rw [pointsLimits]; simpa [hfx] using h⟩
        · obtain ⟨p, hp, hpy⟩ := List.mem_map.mp h
          exact ⟨p, hp, by rw [pointsLimits]; simp only [hfx]; rw [hpy]⟩
      · intro p hp
        rw [pointsLimits]
        simp only [hfx]
        exact le_foldl_max _ _ p.y (List.mem_map.mpr ⟨p, hp, rfl⟩)

/-- C10: `pointsLimits` on an empty list returns without modifying any of the
output references (the caller's values survive); on a non-empty list it sets
them to the exact minimum and maximum x and y coordinates over the list. -/
theorem pointsLimits_frame_and_extrema (points : List Point2f) (xmin xmax ymin ymax : ℚ) :
    (points = [] → pointsLimits points xmin xmax ymin ymax = (xmin, xmax, ymin, ymax)) ∧
    (points ≠ [] →
      ((∃ p ∈ points, (pointsLimits points xmin xmax ymin ymax).1 = p.x) ∧
        ∀ p ∈ points, (pointsLimits points xmin xmax ymin ymax).1 ≤ p.x) ∧
      ((∃ p ∈ points, (pointsLimits points xmin xmax ymin ymax).2.1 = p.x) ∧
        ∀ p ∈ points, p.x ≤ (pointsLimits points xmin xmax ymin ymax).2.1) ∧
      ((∃ p ∈ points, (pointsLimits points xmin xmax ymin ymax).2.2.1 = p.y) ∧
        ∀ p ∈ points, (pointsLimits points xmin xmax ymin ymax).2.2.1 ≤ p.y) ∧
      ((∃ p ∈ points, (pointsLimits points xmin xmax ymin ymax).2.2.2 = p.y) ∧
        ∀ p ∈ points, p.y ≤ (pointsLimits points xmin xmax ymin ymax).2.2.2)) := by
  constructor
  · intro h
    subst h
    rfl
  · intro hne
    exact pointsLimits_bounds points xmin xmax ymin ymax hne

theorem pointsLimits_frame_and_extrema_witness :
    pointsLimits ([] : List Point2f) 1 2 3 4 = (1, 2, 3, 4) ∧
      (pointsLimits [(⟨1, 2⟩ : Point2f), ⟨3, 0⟩] 0 0 0 0).1 ≤ 1 :=
  ⟨(pointsLimits_frame_and_extrema [] 1 2 3 4).1 rfl,
    (((pointsLimits_frame_and_extrema [(⟨1, 2⟩ : Point2f), ⟨3, 0⟩] 0 0 0 0).2
      (by simp)).1).2 ⟨1, 2⟩ (by simp)⟩

/-! ### C5: `isBBox` versus the bounding-box reconstruction -/

/-- C5 as stated: `isBBox p` is true exactly when the 4-corner bounding box
reconstructed by `pointsBBox` equals `p` in the same corner order (the list
must be non-empty for `pointsBBox` to produce corners at all). -/
def ClaimC5 (p : List Point2f) : Prop :=
  isBBox p = true ↔ (p ≠ [] ∧ pointsBBox p = p)

/-- C5 fails on the reflected unit square `(1,0) (0,0) (0,1) (1,1)`: the four
equalities tested by `isBBox` hold (it returns true), but the corners are not
in the order `pointsBBox` produces, so the reconstruction differs from the
input. -/
theorem ClaimC5_counterexample :
    ¬ ClaimC5 [⟨1, 0⟩, ⟨0, 0⟩, ⟨0, 1⟩, ⟨1, 1⟩] := by
  simp only [ClaimC5]
  intro h
  have h1 : isBBox [⟨1, 0⟩, ⟨0, 0⟩, ⟨0, 1⟩, ⟨1, 1⟩] = true := by
    simp [isBBox]
  have h2 := (h.mp h1).2
  simp only [pointsBBox, pointsLimits, List.foldl_cons, List.foldl_nil,
    List.cons.injEq, Point2f.mk.injEq] at h2
  norm_num [min_def, max_def] at h2

/-- C5 amended: `isBBox p` is true iff `p` has exactly 4 points satisfying
`x0 = x3`, `y0 = y1`, `x1 = x2`, `y2 = y3` (an axis-aligned rectangle walk,
possibly degenerate or reflected); under the additional canonical-orientation
assumptions `x0 ≤ x1` and `y0 ≤ y3` this coincides with the reconstruction
test `pointsBBox p = p`. -/
theorem isBBox_iff_amended (p : List Point2f) :
    (isBBox p = true ↔ ∃ p0 p1 p2 p3 : Point2f, p = [p0, p1, p2, p3] ∧
      p0.x = p3.x ∧ p0.y = p1.y ∧ p1.x = p2.x ∧ p2.y = p3.y) ∧
    (∀ p0 p1 p2 p3 : Point2f, p = [p0, p1, p2, p3] → p0.x ≤ p1.x → p0.y ≤ p3.y →
      (isBBox p = true ↔ pointsBBox p = p)) := by
  constructor
  · constructor
    · intro h
      match p with
      | [] => simp [isBBox] at h
      | [q0] => simp [isBBox] at h
      | [q0, q1] => simp [isBBox] at h
      | [q0, q1, q2] => simp [isBBox] at h
      | q0 :: q1 :: q2 :: q3 :: q4 :: t => simp [isBBox] at h
      | [q0, q1, q2, q3] =>
        simp only [isBBox, Bool.and_eq_true, decide_eq_true_eq] at h
        exact ⟨q0, q1, q2, q3, rfl, h.1.1.1, h.1.1.2, h.1.2, h.2⟩
    · rintro ⟨p0, p1, p2, p3, rfl, h1, h2, h3, h4⟩
      simp [isBBox, h1, h2, h3, h4]
  · rintro p0 p1 p2 p3 rfl hx hy
    constructor
    · intro h
      simp only [isBBox, Bool.and_eq_true, decide_eq_true_eq] at h
      obtain ⟨⟨⟨e1, e2⟩, e3⟩, e4⟩ := h
      have hxmin : min (min (min (min p0.x p0.x) p1.x) p2.x) p3.x = p0.x := by
        have a1 : min p0.x p0.x = p0.x := min_self _
        have a2 : min p0.x p1.x = p0.x := min_eq_left hx
        have a3 : min p0.x p2.x = p0.x := min_eq_left (e3 ▸ hx)
        have a4 : min p0.x p3.x = p0.x := min_eq_left (le_of_eq e1)
        rw [a1, a2, a3, a4]
      have hxmax : max (max (max (max p0.x p0.x) p1.x) p2.x) p3.x = p1.x := by
        have a1 : max p0.x p0.x = p0.x := max_self _
        have a2 : max p0.x p1.x = p1.x := max_eq_right hx
        have a3 : max p1.x p2.x = p1.x := max_eq_left (le_of_eq e3.symm)
        have a4 : max p1.x p3.x = p1.x := max_eq_left (e1 ▸ hx)
        rw [a1, a2, a3, a4]
      have hymin : min (min (min (min p0.y p0.y) p1.y) p2.y) p3.y = p0.y := by
        have a1 : min p0.y p0.y = p0.y := min_self _
        have a2 : min p0.y p1.y = p0.y := min_eq_left (le_of_eq e2)
        have a3 : min p0.y p2.y = p0.y := min_eq_left (e4.symm ▸ hy)
        have a4 : min p0.y p3.y = p0.y := min_eq_left hy
        rw [a1, a2, a3, a4]
      have hymax : max (max (max (max p0.y p0.y) p1.y) p2.y) p3.y = p3.y := by
        have a1 : max p0.y p0.y = p0.y := max_self _
        have a2 : max p0.y p1.y = p0.y := max_eq_left (le_of_eq e2.symm)
        have a3 : max p0.y p2.y = p2.y := max_eq_right (e4.symm ▸ hy)
        have a4 : max p2.y p3.y = p3.y := max_eq_right (le_of_eq e4)
        rw [a1, a2, a3, a4]
      have g1 : (⟨p0.x, p0.y⟩ : Point2f) = p0 := rfl
      have g2 : (⟨p1.x, p0.y⟩ : Point2f) = p1 := by rw [e2]
      have g3 : (⟨p1.x, p3.y⟩ : Point2f) = p2 := by rw [e3, ← e4]
      have g4 : (⟨p0.x, p3.y⟩ : Point2f) = p3 := by rw [e1]
      simp only [pointsBBox, pointsLimits, List.foldl_cons, List.foldl_nil]
      rw [hxmin, hxmax, hymin, hymax, g1, g2, g3, g4]
    · intro h
      simp only [pointsBBox, pointsLimits, List.foldl_cons, List.foldl_nil,
        List.cons.injEq, and_true] at h
      obtain ⟨h0, h1, h2, h3⟩ := h
      simp only [isBBox, Bool.and_eq_true, decide_eq_true_eq]
      have e0x : p0.x = min (min (min (min p0.x p0.x) p1.x) p2.x) p3.x :=
        (congrArg Point2f.x h0).symm
      have e0y : p0.y = min (min (min (min p0.y p0.y) p1.y) p2.y) p3.y :=
        (congrArg Point2f.y h0).symm
      have e1x : p1.x = max (max (max (max p0.x p0.x) p1.x) p2.x) p3.x :=
        (congrArg Point2f.x h1).symm
      have e1y : p1.y = min (min (min (min p0.y p0.y) p1.y) p2.y) p3.y :=
        (congrArg Point2f.y h1).symm
      have e2x : p2.x = max (max (max (max p0.x p0.x) p1.x) p2.x) p3.x :=
        (congrArg Point2f.x h2).symm
      have e2y : p2.y = max (max (max (max p0.y p0.y) p1.y) p2.y) p3.y :=
        (congrArg Point2f.y h2).symm
      have e3x : p3.x = min (min (min (min p0.x p0.x) p1.x) p2.x) p3.x :=
        (congrArg Point2f.x h3).symm
      have e3y : p3.y = max (max (max (max p0.y p0.y) p1.y) p2.y) p3.y :=
        (congrArg Point2f.y h3).symm
      exact ⟨⟨⟨e0x.trans e3x.symm, e0y.trans e1y.symm⟩, e1x.trans e2x.symm⟩,
        e2y.trans e3y.symm⟩

theorem isBBox_iff_amended_witness :
    isBBox [(⟨0, 0⟩ : Point2f), ⟨2, 0⟩, ⟨2, 1⟩, ⟨0, 1⟩] = true ↔
      pointsBBox [(⟨0, 0⟩ : Point2f), ⟨2, 0⟩, ⟨2, 1⟩, ⟨0, 1⟩] =
        [⟨0, 0⟩, ⟨2, 0⟩, ⟨2, 1⟩, ⟨0, 1⟩] :=
  (isBBox_iff_amended _).2 ⟨0, 0⟩ ⟨2, 0⟩ ⟨2, 1⟩ ⟨0, 1⟩ rfl (by norm_num) (by norm_num)

/-! ### C9: frame property of `intersection` -/

/-- C9: `intersection` returns false exactly when the cross product of the
two direction vectors is smaller than `1e-8` in absolute value, and in that
case the output point is left completely unmodified (the caller's pre-seeded
value survives); the point is written only on a `true` return. -/
theorem intersection_parallel_frame (a b c d ip : Point2f) :
    ((intersection a b c d ip).1 = false ↔
      fabsQ ((b - a).x * (d - c).y - (b - a).y * (d - c).x) < 1 / 100000000) ∧
    ((intersection a b c d ip).1 = false → (intersection a b c d ip).2 = ip) := by
  by_cases h : fabsQ ((b - a).x * (d - c).y - (b - a).y * (d - c).x) < (1 : ℚ) / 100000000
  · have e : intersection a b c d ip = (false, ip) := by
      simp only [intersection]
      rw [if_pos h]
    rw [e]
    exact ⟨⟨fun _ => h, fun _ => rfl⟩, fun _ => rfl⟩
  · have e1 : intersection a b c d ip =
        (true, a + (((c - a).x * (d - c).y - (c - a).y * (d - c).x) /
          ((b - a).x * (d - c).y - (b - a).y * (d - c).x)) • (b - a)) := by
      simp only [intersection]
      rw [if_neg h]
    rw [e1]
    constructor
    · constructor
      · intro hc
        exact absurd hc (by simp)
      · intro hc
        exact absurd hc h
    · intro hc
      exact absurd hc (by simp)

theorem intersection_parallel_frame_witness :
    (intersection ⟨0, 0⟩ ⟨1, 0⟩ ⟨0, 1⟩ ⟨1, 1⟩ ⟨5, 7⟩).2 = ⟨5, 7⟩ :=
  (intersection_parallel_frame ⟨0, 0⟩ ⟨1, 0⟩ ⟨0, 1⟩ ⟨1, 1⟩ ⟨5, 7⟩).2
    (by norm_num [intersection, fabsQ, Point2f.sub_def])

/-! ### C7: the margin-expanded crop window stays inside the page -/

theorem truncQ_nonneg {q : ℚ} (h : 0 ≤ q) : 0 ≤ truncQ q := by
  unfold truncQ
  rw [if_pos h]
  exact Int.le_floor.mpr (by exact_mod_cast h)

theorem truncQ_le_int {q : ℚ} {n : ℤ} (hn : 0 ≤ n) (h : q ≤ (n : ℚ)) : truncQ q ≤ n := by
  by_cases hq : 0 ≤ q
  · rw [truncQ, if_pos hq]
    exact le_trans (Int.floor_le_floor h) (le_of_eq (Int.floor_intCast n))
  · rw [truncQ, if_neg hq]
    exact Int.ceil_le.mpr (le_trans (le_of_lt (lt_of_not_le hq)) (by exact_mod_cast hn))

theorem marginVal_nonneg (maxWH : ℤ) (m : ℚ) (hW : 0 ≤ maxWH) (hm : 0 ≤ m) :
    0 ≤ marginVal maxWH m := by
  unfold marginVal
  split
  · exact mul_nonneg (by exact_mod_cast hW) hm
  · exact hm

theorem clampLow_nonneg (a : ℤ) : 0 ≤ clampLow a := by
  unfold clampLow
  split <;> omega

theorem clampLow_le (a b : ℤ) (hb : 0 ≤ b) (hab : a ≤ b) : clampLow a ≤ b := by
  unfold clampLow
  split <;> omega

theorem clampSize_bound (limit pos size : ℤ) :
    pos + clampSize limit pos size - 1 ≤ limit - 1 := by
  unfold clampSize
  split <;> omega

theorem clampSize_nonneg (limit pos size : ℤ) (h1 : pos ≤ limit - 1) (h2 : 0 ≤ size) :
    0 ≤ clampSize limit pos size := by
  unfold clampSize
  split <;> omega

/-- The margin-expansion block maps a window seeded inside the page to a
window inside the page: position components stay nonnegative, size components
stay nonnegative, and the last covered pixel stays within the page. -/
theorem cropMargin_spec (m0 m1 : Point2f) (width height x y w h : ℤ)
    (hx0 : 0 ≤ x) (hy0 : 0 ≤ y) (hxw : x ≤ width - 1) (hyh : y ≤ height - 1)
    (hw : 1 ≤ w) (hh : 1 ≤ h)
    (hm0x : 0 ≤ m0.x) (hm0y : 0 ≤ m0.y) (hm1x : 0 ≤ m1.x) (hm1y : 0 ≤ m1.y) :
    0 ≤ (cropMargin m0 m1 width height (x, y, w, h)).1 ∧
    0 ≤ (cropMargin m0 m1 width height (x, y, w, h)).2.1 ∧
    0 ≤ (cropMargin m0 m1 width height (x, y, w, h)).2.2.1 ∧
    0 ≤ (cropMargin m0 m1 width height (x, y, w, h)).2.2.2 ∧
    (cropMargin m0 m1 width height (x, y, w, h)).1 +
      (cropMargin m0 m1 width height (x, y, w, h)).2.2.1 - 1 ≤ width - 1 ∧
    (cropMargin m0 m1 width height (x, y, w, h)).2.1 +
      (cropMargin m0 m1 width height (x, y, w, h)).2.2.2 - 1 ≤ height - 1 := by
  have hmax : (0 : ℤ) ≤ max w h := le_trans (show (0 : ℤ) ≤ w by omega) (le_max_left w h)
  have hv0x : 0 ≤ marginVal (max w h) m0.x := marginVal_nonneg _ _ hmax hm0x
  have hv0y : 0 ≤ marginVal (max w h) m0.y := marginVal_nonneg _ _ hmax hm0y
  have hv1x : 0 ≤ marginVal (max w h) m1.x := marginVal_nonneg _ _ hmax hm1x
  have hv1y : 0 ≤ marginVal (max w h) m1.y := marginVal_nonneg _ _ hmax hm1y
  have hX1 : truncQ ((x : ℚ) - marginVal (max w h) m0.x) ≤ x :=
    truncQ_le_int hx0 (by linarith)
  have hY1 : truncQ ((y : ℚ) - marginVal (max w h) m0.y) ≤ y :=
    truncQ_le_int hy0 (by linarith)
  have hXle : clampLow (truncQ ((x : ℚ) - marginVal (max w h) m0.x)) ≤ x :=
    clampLow_le _ _ hx0 hX1
  have hYle : clampLow (truncQ ((y : ℚ) - marginVal (max w h) m0.y)) ≤ y :=
    clampLow_le _ _ hy0 hY1
  have hW0 : 0 ≤ truncQ (((w + (x - clampLow (truncQ ((x : ℚ) - marginVal (max w h) m0.x))) :
      ℤ) : ℚ) + marginVal (max w h) m1.x) := by
    refine truncQ_nonneg ?_
    have : (0 : ℚ) ≤ ((w + (x - clampLow (truncQ ((x : ℚ) - marginVal (max w h) m0.x))) :
        ℤ) : ℚ) := by
      have : (0 : ℤ) ≤ w + (x - clampLow (truncQ ((x : ℚ) - marginVal (max w h) m0.x))) := by
        omega
      exact_mod_cast this
    linarith
  have hH0 : 0 ≤ truncQ (((h + (y - clampLow (truncQ ((y : ℚ) - marginVal (max w h) m0.y))) :
      ℤ) : ℚ) + marginVal (max w h) m1.y) := by
    refine truncQ_nonneg ?_
    have : (0 : ℚ) ≤ ((h + (y - clampLow (truncQ ((y : ℚ) - marginVal (max w h) m0.y))) :
        ℤ) : ℚ) := by
      have : (0 : ℤ) ≤ h + (y - clampLow (truncQ ((y : ℚ) - marginVal (max w h) m0.y))) := by
        omega
      exact_mod_cast this
    linarith
  simp only [cropMargin]
  refine ⟨clampLow_nonneg _, clampLow_nonneg _,
    clampSize_nonneg _ _ _ (by omega) hW0, clampSize_nonneg _ _ _ (by omega) hH0,
    clampSize_bound _ _ _, clampSize_bound _ _ _⟩

/-- C7: in `crop`, whenever a margin is given, the window obtained after
margin expansion lies entirely within the page: `cropX ≥ 0`, `cropY ≥ 0`,
`cropX + cropW - 1 ≤ pageWidth - 1` and `cropY + cropH - 1 ≤ pageHeight - 1`
(and both sizes are nonnegative, so the `size_t` arithmetic of the source is
faithfully modelled), for every matched polygon whose points lie within the
page bounds and all nonnegative margin values. -/
theorem cropWindow_with_margin_within_page (coords : List Point2f) (m0 m1 : Point2f)
    (width height : ℤ) (hne : coords ≠ [])
    (hin : ∀ p ∈ coords, 0 ≤ p.x ∧ p.x ≤ (width : ℚ) - 1 ∧ 0 ≤ p.y ∧ p.y ≤ (height : ℚ) - 1)
    (hm0x : 0 ≤ m0.x) (hm0y : 0 ≤ m0.y) (hm1x : 0 ≤ m1.x) (hm1y : 0 ≤ m1.y) :
    0 ≤ (cropWindow coords (some (m0, m1)) width height).1 ∧
    0 ≤ (cropWindow coords (some (m0, m1)) width height).2.1 ∧
    0 ≤ (cropWindow coords (some (m0, m1)) width height).2.2.1 ∧
    0 ≤ (cropWindow coords (some (m0, m1)) width height).2.2.2 ∧
    (cropWindow coords (some (m0, m1)) width height).1 +
      (cropWindow coords (some (m0, m1)) width height).2.2.1 - 1 ≤ width - 1 ∧
    (cropWindow coords (some (m0, m1)) width height).2.1 +
      (cropWindow coords (some (m0, m1)) width height).2.2.2 - 1 ≤ height - 1 := by
  obtain ⟨⟨⟨pmin, hpmin, hminx⟩, hminle⟩, ⟨⟨pmax, hpmax, hmaxx⟩, hlemax⟩,
    ⟨⟨qmin, hqmin, hminy⟩, hminley⟩, ⟨⟨qmax, hqmax, hmaxy⟩, hlemaxy⟩⟩ :=
    pointsLimits_bounds coords 0 0 0 0 hne
  have hxm0 : (0 : ℚ) ≤ (pointsLimits coords 0 0 0 0).1 := by
    rw [hminx]; exact (hin pmin hpmin).1
  have hxm1 : (pointsLimits coords 0 0 0 0).1 ≤ (width : ℚ) - 1 := by
    rw [hminx]; exact (hin pmin hpmin).2.1
  have hym0 : (0 : ℚ) ≤ (pointsLimits coords 0 0 0 0).2.2.1 := by
    rw [hminy]; exact (hin qmin hqmin).2.2.1
  have hym1 : (pointsLimits coords 0 0 0 0).2.2.1 ≤ (height : ℚ) - 1 := by
    rw [hminy]; exact (hin qmin hqmin).2.2.2
  have hminmaxx : (pointsLimits coords 0 0 0 0).1 ≤ (pointsLimits coords 0 0 0 0).2.1 := by
    rw [hminx]; exact hlemax pmin hpmin
  have hminmaxy : (pointsLimits coords 0 0 0 0).2.2.1 ≤ (pointsLimits coords 0 0 0 0).2.2.2 := by
    rw [hminy]; exact hlemaxy qmin hqmin
  have hfx0 : 0 ≤ ⌊(pointsLimits coords 0 0 0 0).1⌋ := Int.le_floor.mpr (by exact_mod_cast hxm0)
  have hfy0 : 0 ≤ ⌊(pointsLimits coords 0 0 0 0).2.2.1⌋ :=
    Int.le_floor.mpr (by exact_mod_cast hym0)
  have hfxW : ⌊(pointsLimits coords 0 0 0 0).1⌋ ≤ width - 1 := by
    have := Int.floor_le_floor hxm1
    rwa [show ((width : ℚ) - 1) = ((width - 1 : ℤ) : ℚ) by push_cast; ring,
      Int.floor_intCast] at this
  have hfyH : ⌊(pointsLimits coords 0 0 0 0).2.2.1⌋ ≤ height - 1 := by
    have := Int.floor_le_floor hym1
    rwa [show ((height : ℚ) - 1) = ((height - 1 : ℤ) : ℚ) by push_cast; ring,
      Int.floor_intCast] at this
  have hwge : 1 ≤ ⌈(pointsLimits coords 0 0 0 0).2.1⌉ - ⌊(pointsLimits coords 0 0 0 0).1⌋ + 1 := by
    have h1 : ((⌊(pointsLimits coords 0 0 0 0).1⌋ : ℚ)) ≤ (pointsLimits coords 0 0 0 0).2.1 :=
      le_trans (Int.floor_le _) hminmaxx
    have h2 : ⌊(pointsLimits coords 0 0 0 0).1⌋ ≤ ⌈(pointsLimits coords 0 0 0 0).2.1⌉ :=
      le_trans (Int.le_ceil_iff.mpr (by linarith)) (le_refl _)
    omega
  have hhge : 1 ≤ ⌈(pointsLimits coords 0 0 0 0).2.2.2⌉ -
      ⌊(pointsLimits coords 0 0 0 0).2.2.1⌋ + 1 := by
    have h1 : ((⌊(pointsLimits coords 0 0 0 0).2.2.1⌋ : ℚ)) ≤
        (pointsLimits coords 0 0 0 0).2.2.2 :=
      le_trans (Int.floor_le _) hminmaxy
    have h2 : ⌊(pointsLimits coords 0 0 0 0).2.2.1⌋ ≤ ⌈(pointsLimits coords 0 0 0 0).2.2.2⌉ :=
      le_trans (Int.le_ceil_iff.mpr (by linarith)) (le_refl _)
    omega
  simp only [cropWindow, cropInit]
  exact cropMargin_spec m0 m1 width height _ _ _ _ hfx0 hfy0 hfxW hfyH hwge hhge
    hm0x hm0y hm1x hm1y

theorem cropWindow_with_margin_within_page_witness :
    0 ≤ (cropWindow [⟨1, 1⟩, ⟨4, 3⟩] (some (⟨2, 2⟩, ⟨2, 2⟩)) 10 10).1 ∧
    0 ≤ (cropWindow [⟨1, 1⟩, ⟨4, 3⟩] (some (⟨2, 2⟩, ⟨2, 2⟩)) 10 10).2.1 ∧
    0 ≤ (cropWindow [⟨1, 1⟩, ⟨4, 3⟩] (some (⟨2, 2⟩, ⟨2, 2⟩)) 10 10).2.2.1 ∧
    0 ≤ (cropWindow [⟨1, 1⟩, ⟨4, 3⟩] (some (⟨2, 2⟩, ⟨2, 2⟩)) 10 10).2.2.2 ∧
    (cropWindow [⟨1, 1⟩, ⟨4, 3⟩] (some (⟨2, 2⟩, ⟨2, 2⟩)) 10 10).1 +
      (cropWindow [⟨1, 1⟩, ⟨4, 3⟩] (some (⟨2, 2⟩, ⟨2, 2⟩)) 10 10).2.2.1 - 1 ≤ 10 - 1 ∧
    (cropWindow [⟨1, 1⟩, ⟨4, 3⟩] (some (⟨2, 2⟩, ⟨2, 2⟩)) 10 10).2.1 +
      (cropWindow [⟨1, 1⟩, ⟨4, 3⟩] (some (⟨2, 2⟩, ⟨2, 2⟩)) 10 10).2.2.2 - 1 ≤ 10 - 1 :=
  cropWindow_with_margin_within_page [⟨1, 1⟩, ⟨4, 3⟩] ⟨2, 2⟩ ⟨2, 2⟩ 10 10
    (by simp)
    (by
      rintro p hp
      simp only [List.mem_cons, List.not_mem_nil, or_false] at hp
      rcases hp with rfl | rfl <;> norm_num)
    (by norm_num) (by norm_num) (by norm_num) (by norm_num)

/-! ### Square roots and norms

The source computes `cv::norm` with double-precision `sqrt`.  `sqrtQ` below
is the rational model of that square root: it is exact on every
perfect-square rational, and every concrete evaluation in this file only
reaches perfect squares, where the double computation is exact as well. -/

/-- Integer square root by downward search: the largest `k ≤ bound` with
`k*k ≤ n` (with `bound = n` this is the integer square root).  Structural
recursion keeps it reducible by `simp`. -/
def isqrtAux : ℕ → ℕ → ℕ
  | 0, _ => 0
  | k + 1, n => if (k + 1) * (k + 1) ≤ n then k + 1 else isqrtAux k n

/-- Integer square root. -/
def isqrtNat (n : ℕ) : ℕ := isqrtAux n n

/-- Rational model of the floating-point `sqrt` (exact on perfect-square
rationals, which covers all concrete evaluations below). -/
def sqrtQ (q : ℚ) : ℚ := (isqrtNat q.num.toNat : ℚ) / (isqrtNat q.den : ℚ)

/-- Model of `cv::norm` on a 2-D vector. -/
def cvNorm (p : Point2f) : ℚ := sqrtQ (p.x * p.x + p.y * p.y)

/-- Model of `v *= 1.0/cv::norm(v)`. -/
def normed (p : Point2f) : Point2f := (1 / cvNorm p) • p

/-- List indexing with a default, modelling the in-range `operator[]`
accesses of the source (all accesses below are in range under the stated
size guards). -/
def pt (l : List Point2f) (i : ℕ) : Point2f := l.getD i ⟨0, 0⟩

/-! ### C2: polystripe synthesis versus verification -/

/-- Model of `withinSegment` (PageXML.cc:2279): `some 0` when the point is
within the segment, `some 1` / `some (-1)` when collinear but outside to the
right / left, and `none` modelling the C quiet NaN returned when the
normalized triangle area exceeds `1e-3` (NaN compares unequal to everything,
exactly as `none` does under decidable equality). -/
def withinSegment (segm_start segm_end point : Point2f) : Option ℚ :=
  let ab := cvNorm (segm_start - segm_end)
  let ac := cvNorm (segm_start - point)
  let bc := cvNorm (segm_end - point)
  let area := fabsQ (segm_start.x * (segm_end.y - point.y) +
    segm_end.x * (point.y - segm_start.y) + point.x * (segm_start.y - segm_end.y)) /
    (2 * (ab + ac + bc) * (ab + ac + bc))
  if 1 / 1000 < area then none
  else if ac ≤ ab ∧ bc ≤ ab then some 0
  else if bc < ac then some 1 else some (-1)

/-- One iteration of the `isPolystripe` loop (PageXML.cc:2316-2340) for index
`n`: the collinearity test (the source rejects when `withinSegment` returns
exactly `0.0`), the parallel-edges test for `n > 0`, and the perpendicular
stripe-extremes test for the first and last index. -/
def polystripeCheck (coords baseline : List Point2f) (n : ℕ) : Bool :=
  let eps : ℚ := 1 / 100
  let m := coords.length - 1 - n
  (decide (withinSegment (pt coords n) (pt coords m) (pt baseline n) ≠ some 0)) &&
  (if n = 0 then true else
    let prevbase := normed (pt baseline (n - 1) - pt baseline n)
    let prevabove := normed (pt coords (n - 1) - pt coords n)
    let prevbelow := normed (pt coords (m + 1) - pt coords m)
    decide (fabsQ (1 - fabsQ (prevabove.x * prevbase.x + prevabove.y * prevbase.y)) ≤ eps) &&
    decide (fabsQ (1 - fabsQ (prevbelow.x * prevbase.x + prevbelow.y * prevbase.y)) ≤ eps)) &&
  (if n = 0 ∨ n = baseline.length - 1 then
    let base := normed (if 0 < n then pt baseline (n - 1) - pt baseline n
      else pt baseline 1 - pt baseline 0)
    let extr := normed (pt coords n - pt coords m)
    decide (base.x * extr.x + base.y * extr.y ≤ eps)
  else true)

/-- Model of `PageXML::isPolystripe` (PageXML.cc:2306): `none` for a `false`
return, `some (height, offset)` for a `true` return together with the values
the source writes through its optional out-pointers. -/
def isPolystripe (coords baseline : List Point2f) : Option (ℚ × ℚ) :=
  if baseline.length = 0 ∨ baseline.length * 2 ≠ coords.length then none
  else if (List.range baseline.length).all (fun n => polystripeCheck coords baseline n) then
    let offup := cvNorm (pt baseline 0 - pt coords 0)
    let offdown := cvNorm (pt baseline 0 - pt coords (coords.length - 1))
    some (offup + offdown, offdown / (offup + offdown))
  else none

/-- The per-edge perpendicular offsets of one `setPolystripe` loop
(PageXML.cc:2388-2392 and 2402-2406): for consecutive points `p, q` the
offset edge is `(p + perp, q + perp)` with
`perp = (base.y, -base.x) * (off / norm(base))`, `base = q - p`. -/
def offsetSegs : List Point2f → ℚ → List (Point2f × Point2f)
  | p :: q :: rest, off =>
    let base := q - p
    let perp := (off / cvNorm base) • (⟨base.y, -base.x⟩ : Point2f)
    (p + perp, q + perp) :: offsetSegs (q :: rest) off
  | _, _ => []

/-- The corner emission of one `setPolystripe` loop: the first offset start
point, then for each subsequent edge the miter intersection with the previous
offset edge (the raw offset start point when the intersection is degenerate —
the out-parameter is pre-seeded with that fallback), and finally the last
offset end point. -/
def miterGo (l1p1 l1p2 : Point2f) : List (Point2f × Point2f) → List Point2f
  | [] => [l1p2]
  | (p, q) :: rest => (intersection l1p1 l1p2 p q p).2 :: miterGo p q rest

/-- One directional pass of `setPolystripe` over a list of offset edges. -/
def miterChain : List (Point2f × Point2f) → List Point2f
  | [] => []
  | (p, q) :: rest => p :: miterGo p q rest

/-- The Coords polygon synthesized by `PageXML::setPolystripe`
(PageXML.cc:2362-2417) for a baseline with at least 2 points and valid
`height > 0`, `offset ∈ [0, 1/2]` (the source throws on invalid parameters
before reaching this computation): the "above" side walking forward with
offset `height - offset*height`, then the "below" side walking backward with
the complementary offset. -/
def setPolystripeCoords (baseline : List Point2f) (height offset : ℚ) : List Point2f :=
  let offup := height - offset * height
  let offdown := height - offup
  miterChain (offsetSegs baseline offup) ++ miterChain (offsetSegs baseline.reverse offdown)

/-- C2 is a code bug: for the straight two-point baseline `(0,0)-(4,0)`,
height 4 and offset 1/2 — all within the documented parameter ranges — the
stripe synthesized by `setPolystripe` is the axis-aligned rectangle
`(0,-2) (4,-2) (4,2) (0,2)`, yet `isPolystripe` rejects it (returns false,
reporting no height/offset).  The collinearity test at PageXML.cc:2320 has
its polarity inverted: it returns false exactly when `withinSegment` reports
the baseline point to lie on the segment joining its paired coords points,
which is the defining property of a polystripe (the source's own comment
says "Check points are collinear"). -/
theorem isPolystripe_rejects_synthesized_stripe :
    setPolystripeCoords [⟨0, 0⟩, ⟨4, 0⟩] 4 (1 / 2) = [⟨0, -2⟩, ⟨4, -2⟩, ⟨4, 2⟩, ⟨0, 2⟩] ∧
    isPolystripe (setPolystripeCoords [⟨0, 0⟩, ⟨4, 0⟩] 4 (1 / 2)) [⟨0, 0⟩, ⟨4, 0⟩] = none := by
  have hcoords : setPolystripeCoords [(⟨0, 0⟩ : Point2f), ⟨4, 0⟩] 4 (1 / 2) =
      [⟨0, -2⟩, ⟨4, -2⟩, ⟨4, 2⟩, ⟨0, 2⟩] := by
    norm_num [setPolystripeCoords, offsetSegs, miterChain, miterGo, cvNorm, sqrtQ,
      isqrtNat, isqrtAux, Point2f.sub_def, Point2f.add_def, Point2f.smul_def,
      Point2f.mk.injEq, List.reverse]
  refine ⟨hcoords, ?_⟩
  rw [hcoords]
  norm_num [isPolystripe, polystripeCheck, withinSegment, pt, cvNorm, sqrtQ,
    isqrtNat, isqrtAux, fabsQ, Point2f.sub_def, List.range_succ]

/-! ### C3/C4: the points-string parser and formatter

`PageXML::stringToPoints` (PageXML.cc:674) repeatedly applies
`sscanf(p, "%lf,%lf", ...)` and advances with `p = strchr(p, ' ') + 1`.
The `%lf` conversion is modelled for plain decimal numbers (optional sign,
digits, optional fraction), the numeric format produced by the formatter
below; the exponent/hex/inf forms of `strtod` are outside the model and all
concrete inputs avoid them.  Note that `%lf` skips any C whitespace before
the number, while `strchr` only recognizes the plain space character. -/

/-- The characters C `isspace` accepts (what `%lf` skips). -/
def isCWhitespace (c : Char) : Bool :=
  c = ' ' ∨ c = '\t' ∨ c = '\n' ∨ c = '\x0B' ∨ c = '\x0C' ∨ c = '\r'

/-- Drop leading C whitespace. -/
def skipWs : List Char → List Char
  | [] => []
  | c :: cs => if isCWhitespace c then skipWs cs else c :: cs

/-- Optional sign of a `%lf` conversion: the sign factor and the rest. -/
def parseSign (cs : List Char) : ℚ × List Char :=
  match cs with
  | [] => (1, [])
  | c :: t => if c = '-' then (-1, t) else if c = '+' then (1, t) else (1, c :: t)

/-- Longest digit prefix and the rest. -/
def takeDigits : List Char → List Char × List Char
  | [] => ([], [])
  | c :: cs =>
    if c.isDigit then
      let r := takeDigits cs
      (c :: r.1, r.2)
    else ([], c :: cs)

/-- Value of a big-endian digit string. -/
def digitsToNat (ds : List Char) : ℕ := ds.foldl (fun a c => 10 * a + (c.toNat - 48)) 0

/-- One `%lf` conversion (plain decimal part of `strtod`): skip whitespace,
optional sign, integer digits, optional `.` and fraction digits; fails when
no digit was seen. -/
def parseNumber (cs : List Char) : Option (ℚ × List Char) :=
  let sg := parseSign (skipWs cs)
  let ip := takeDigits sg.2
  if ip.2.head? = some '.' then
    let fp := takeDigits ip.2.tail
    if ip.1 = [] ∧ fp.1 = [] then none
    else
      some (sg.1 * ((digitsToNat ip.1 : ℚ) + (digitsToNat fp.1 : ℚ) / 10 ^ fp.1.length), fp.2)
  else if ip.1 = [] then none
  else some (sg.1 * (digitsToNat ip.1 : ℚ), ip.2)

/-- One `sscanf(p, "%lf,%lf", &x, &y)` call: two `%lf` conversions separated
by a literal `,` (which, unlike `%lf`, skips no whitespace).  Returns the
point and the unconsumed rest on success (`== 2` in the source). -/
def parseXY (cs : List Char) : Option (Point2f × List Char) :=
  match parseNumber cs with
  | none => none
  | some (x, r1) =>
    if r1.head? = some ',' then
      match parseNumber r1.tail with
      | none => none
      | some (y, r2) => some (⟨x, y⟩, r2)
    else none

/-- Index of the first `' '`, modelling `strchr(p, ' ')`. -/
def findSpace : List Char → Option ℕ
  | [] => none
  | c :: cs => if c = ' ' then some 0 else (findSpace cs).map (· + 1)

/-- The loop of `PageXML::stringToPoints` (PageXML.cc:679-688): parse an
`"x,y"` prefix at the current position (stop on failure), then jump just past
the next space character counted from the position the parse started at
(stop when there is none).  The fuel argument bounds the iterations; each
step drops at least one character, so `length + 1` fuel is never exhausted. -/
def stringToPointsAux : ℕ → List Char → List Point2f
  | 0, _ => []
  | fuel + 1, cs =>
    match parseXY cs with
    | none => []
    | some (p, _) =>
      match findSpace cs with
      | none => [p]
      | some i => p :: stringToPointsAux fuel (cs.drop (i + 1))

/-- Model of `PageXML::stringToPoints` (PageXML.cc:674). -/
def stringToPoints (s : List Char) : List Point2f := stringToPointsAux (s.length + 1) s

/-- Big-endian decimal digit characters of `n` (empty for `n = 0`), with
explicit fuel to keep the recursion structural. -/
def natToDigitsAux : ℕ → ℕ → List Char
  | 0, _ => []
  | fuel + 1, n => if n = 0 then [] else natToDigitsAux fuel (n / 10) ++ [Char.ofNat (48 + n % 10)]

/-- Big-endian decimal digit characters of a natural number. -/
def natToDigits (n : ℕ) : List Char := natToDigitsAux n n

/-- Left-pad with `'0'` up to length `n`. -/
def padLeft (l : List Char) (n : ℕ) : List Char := List.replicate (n - l.length) '0' ++ l

/-- Exact-decimal printer: sign, integer part, and fraction digits with
trailing zeros stripped (and the point omitted for integers).  This models
`sprintf("%g", ·)` only on values where `%g` prints exactly this plain
decimal — integers of magnitude below `10^6` (see `fmtExact`): at most 6
significant digits, decimal exponent below 6, so `%g` (6 significant
digits, non-exponent regime) emits the exact plain decimal and the value
survives the double round trip unchanged.  Outside that regime `%g` rounds
to 6 significant digits or switches to exponent notation, which this
printer does not model; the round-trip theorem below therefore quantifies
only over `fmtExact` values. -/
def fmtQ (q : ℚ) : List Char :=
  let k := q.den
  let m := q.num.natAbs * 10 ^ k / q.den
  let ds := padLeft (natToDigits m) (k + 1)
  let ipart := ds.take (ds.length - k)
  let fpart := ((ds.drop (ds.length - k)).reverse.dropWhile (fun c => c = '0')).reverse
  (if q.num < 0 then ['-'] else []) ++ ipart ++ (if fpart = [] then [] else '.' :: fpart)

/-- Single-space join, modelling the `( n == 0 ? "" : " " ) + val`
accumulation of `pointsToString`. -/
def joinSp : List (List Char) → List Char
  | [] => []
  | [t] => t
  | t :: ts => t ++ ' ' :: joinSp ts

/-- Model of `PageXML::pointsToString(points, rounded=false)`
(PageXML.cc:778): `"%g,%g"` per point, space separated. -/
def pointsToString (points : List Point2f) : List Char :=
  joinSp (points.map (fun p => fmtQ p.x ++ ',' :: fmtQ p.y))

/-- Whitespace-separated tokens of a string (accumulator reversed on
emission), the reading of "whitespace-separated tokens" used by the
specification. -/
def wordsAux : List Char → List Char → List (List Char)
  | [], acc => if acc = [] then [] else [acc.reverse]
  | c :: cs, acc =>
    if isCWhitespace c then
      (if acc = [] then wordsAux cs [] else acc.reverse :: wordsAux cs [])
    else wordsAux cs (c :: acc)

/-- The whitespace-separated tokens of a string. -/
def wordsOf (s : List Char) : List (List Char) := wordsAux s []

/-- A token is entirely a well-formed `"x,y"` pair: the parse succeeds and
consumes the whole token. -/
def wellFormedTok (t : List Char) : Bool :=
  match parseXY t with
  | some (_, []) => true
  | _ => false

/-- The point value of a token (junk for unparsable tokens). -/
def tokenPoint (t : List Char) : Point2f :=
  match parseXY t with
  | some (p, _) => p
  | none => ⟨0, 0⟩

/-! ### Parser lemmas -/

theorem skipWs_append (t ext : List Char) (h : skipWs t ≠ []) :
    skipWs (t ++ ext) = skipWs t ++ ext := by
  induction t with
  | nil => exact absurd rfl h
  | cons c cs ih =>
    by_cases hc : isCWhitespace c
    · have e : skipWs (c :: cs) = skipWs cs := by rw [skipWs, if_pos hc]
      rw [e] at h
      rw [List.cons_append, skipWs, if_pos hc, e]
      exact ih h
    · have e : skipWs (c :: cs) = c :: cs := by rw [skipWs, if_neg hc]
      rw [List.cons_append, skipWs, if_neg hc, e, List.cons_append]

theorem parseSign_append (c : Char) (s ext : List Char) :
    parseSign (c :: (s ++ ext)) = ((parseSign (c :: s)).1, (parseSign (c :: s)).2 ++ ext) := by
  by_cases h1 : c = '-'
  · subst h1
    simp [parseSign]
  · by_cases h2 : c = '+'
    · subst h2
      simp [parseSign]
    · simp [parseSign, h1, h2]

theorem takeDigits_append (a b : List Char) :
    takeDigits (a ++ b) =
      if (takeDigits a).2 = [] then ((takeDigits a).1 ++ (takeDigits b).1, (takeDigits b).2)
      else ((takeDigits a).1, (takeDigits a).2 ++ b) := by
  induction a with
  | nil => simp [takeDigits]
  | cons c cs ih =>
    by_cases hc : c.isDigit
    · rcases h2 : (takeDigits cs).2 with _ | ⟨d, ds⟩ <;>
        simp [takeDigits, hc, ih, h2]
    · simp [takeDigits, hc]

theorem takeDigits_head_not_digit (l : List Char)
    (h : ∀ c, l.head? = some c → c.isDigit = false) : takeDigits l = ([], l) := by
  cases l with
  | nil => rfl
  | cons c cs => simp [takeDigits, h c rfl]

theorem takeDigits_rest_head (l : List Char) :
    ∀ c, (takeDigits l).2.head? = some c → c.isDigit = false := by
  induction l with
  | nil =>
    intro c h
    simp [takeDigits] at h
  | cons d ds ih =>
    intro c h
    by_cases hd : d.isDigit
    · exact ih c (by simpa [takeDigits, hd] using h)
    · simp only [takeDigits, hd, Bool.false_eq_true, if_false, List.head?_cons,
        Option.some.injEq] at h
      rw [← h]
      simpa using hd

theorem takeDigits_of_digits (ds rest : List Char) (hds : ∀ c ∈ ds, c.isDigit = true)
    (hrest : ∀ c, rest.head? = some c → c.isDigit = false) :
    takeDigits (ds ++ rest) = (ds, rest) := by
  induction ds with
  | nil => exact takeDigits_head_not_digit rest hrest
  | cons c cs ih =>
    have hc : c.isDigit = true := hds c (List.mem_cons_self _ _)
    have ih2 := ih (fun c h => hds c (List.mem_cons_of_mem _ h))
    simp [takeDigits, hc, ih2]

theorem parseNumber_append {t ext : List Char} {v : ℚ} {r : List Char}
    (h : parseNumber t = some (v, r))
    (hext : r ≠ [] ∨ ∀ c, ext.head? = some c → c.isDigit = false ∧ c ≠ '.') :
    parseNumber (t ++ ext) = some (v, r ++ ext) := by
  have hskip : skipWs t ≠ [] := by
    intro hnil
    simp [parseNumber, hnil, parseSign, takeDigits] at h
  obtain ⟨c, s, hs⟩ : ∃ c s, skipWs t = c :: s := by
    rcases e : skipWs t with _ | ⟨c, s⟩
    · exact absurd e hskip
    · exact ⟨c, s, rfl⟩
  have hsw : skipWs (t ++ ext) = c :: (s ++ ext) := by
    rw [skipWs_append t ext hskip, hs, List.cons_append]
  have hextDigits : (∀ c, ext.head? = some c → c.isDigit = false ∧ c ≠ '.') →
      takeDigits ext = ([], ext) :=
    fun hsafe => takeDigits_head_not_digit ext (fun c hc => (hsafe c hc).1)
  rcases hip2 : (takeDigits (parseSign (c :: s)).2).2 with _ | ⟨d, u⟩
  · -- integer digits reach the end of t
    simp only [parseNumber, hs, hip2, List.head?_nil, reduceCtorEq, if_false] at h
    by_cases hip1 : (takeDigits (parseSign (c :: s)).2).1 = []
    · simp [hip1] at h
    · rw [if_neg hip1] at h
      have hpair := Option.some.inj h
      have hv : (parseSign (c :: s)).1 *
          (digitsToNat (takeDigits (parseSign (c :: s)).2).1 : ℚ) = v :=
        congrArg Prod.fst hpair
      have hr : ([] : List Char) = r := congrArg Prod.snd hpair
      have hsafe : ∀ c, ext.head? = some c → c.isDigit = false ∧ c ≠ '.' := by
        rcases hext with hne | hsafe
        · exact absurd hr.symm hne
        · exact hsafe
      have htd : takeDigits ((parseSign (c :: s)).2 ++ ext) =
          ((takeDigits (parseSign (c :: s)).2).1, ext) := by
        rw [takeDigits_append, if_pos hip2, hextDigits hsafe]
        simp
      have hexthead : ¬ ext.head? = some '.' := by
        intro hh
        exact (hsafe '.' hh).2 rfl
      simp only [parseNumber, hsw, parseSign_append, htd, if_neg hexthead, if_neg hip1]
      rw [hv, ← hr]
      simp
  · by_cases hd : d = '.'
    · -- fraction part present
      subst hd
      simp only [parseNumber, hs, hip2, List.head?_cons, Option.some.injEq, if_true,
        if_pos rfl, List.tail_cons] at h
      by_cases hguard : (takeDigits (parseSign (c :: s)).2).1 = [] ∧ (takeDigits u).1 = []
      · simp [hguard] at h
      · rw [if_neg hguard] at h
        have hpair := Option.some.inj h
        have hv : (parseSign (c :: s)).1 *
            ((digitsToNat (takeDigits (parseSign (c :: s)).2).1 : ℚ) +
              (digitsToNat (takeDigits u).1 : ℚ) / 10 ^ (takeDigits u).1.length) = v :=
          congrArg Prod.fst hpair
        have hr : (takeDigits u).2 = r := congrArg Prod.snd hpair
        have htd : takeDigits ((parseSign (c :: s)).2 ++ ext) =
            ((takeDigits (parseSign (c :: s)).2).1, ('.' :: u) ++ ext) := by
          rw [takeDigits_append, if_neg (by rw [hip2]; simp), hip2]
        rcases hfp2 : (takeDigits u).2 with _ | ⟨e, w⟩
        · -- fraction digits reach the end of t
          have hsafe : ∀ c, ext.head? = some c → c.isDigit = false ∧ c ≠ '.' := by
            rcases hext with hne | hsafe
            · rw [← hr] at hne
              exact absurd hfp2 hne
            · exact hsafe
          have htf : takeDigits (u ++ ext) = ((takeDigits u).1, ext) := by
            rw [takeDigits_append, if_pos hfp2, hextDigits hsafe]
            simp
          simp only [parseNumber, hsw, parseSign_append, htd, List.cons_append,
            List.head?_cons, Option.some.injEq, if_true, if_pos rfl, List.tail_cons, htf,
            if_neg hguard]
          rw [hv, ← hr, hfp2]
          simp
        · have htf : takeDigits (u ++ ext) = ((takeDigits u).1, (e :: w) ++ ext) := by
            rw [takeDigits_append, if_neg (by rw [hfp2]; simp), hfp2]
          simp only [parseNumber, hsw, parseSign_append, htd, List.cons_append,
            List.head?_cons, Option.some.injEq, if_true, if_pos rfl, List.tail_cons, htf,
            if_neg hguard]
          rw [hv, ← hr, hfp2]
          simp
    · -- integer digits stop at a non-dot character inside t
      have hnotdot : ¬ (takeDigits (parseSign (c :: s)).2).2.head? = some '.' := by
        rw [hip2]
        simp [hd]
      simp only [parseNumber, hs, if_neg hnotdot] at h
      by_cases hip1 : (takeDigits (parseSign (c :: s)).2).1 = []
      · simp [hip1] at h
      · rw [if_neg hip1] at h
        have hpair := Option.some.inj h
        have hv : (parseSign (c :: s)).1 *
            (digitsToNat (takeDigits (parseSign (c :: s)).2).1 : ℚ) = v :=
          congrArg Prod.fst hpair
        have hr : (takeDigits (parseSign (c :: s)).2).2 = r := congrArg Prod.snd hpair
        have htd : takeDigits ((parseSign (c :: s)).2 ++ ext) =
            ((takeDigits (parseSign (c :: s)).2).1, (d :: u) ++ ext) := by
          rw [takeDigits_append, if_neg (by rw [hip2]; simp), hip2]
        have hnotdot2 : ¬ (((d : Char) :: u) ++ ext).head? = some '.' := by
          simp [hd]
        simp only [parseNumber, hsw, parseSign_append, htd, if_neg hnotdot2, if_neg hip1]
        rw [hv, ← hr, hip2]

theorem parseXY_append {t ext : List Char} {p : Point2f} {r : List Char}
    (h : parseXY t = some (p, r))
    (hext : r ≠ [] ∨ ∀ c, ext.head? = some c → c.isDigit = false ∧ c ≠ '.') :
    parseXY (t ++ ext) = some (p, r ++ ext) := by
  rcases e1 : parseNumber t with _ | ⟨x, r1⟩
  · simp [parseXY, e1] at h
  · by_cases hr1 : r1.head? = some ','
    · rcases e2 : parseNumber r1.tail with _ | ⟨y, r2⟩
      · simp [parseXY, e1, hr1, e2] at h
      · have hentry : p = ⟨x, y⟩ ∧ r2 = r := by
          simp only [parseXY, e1, hr1, if_true, if_pos rfl, e2, Option.some.injEq,
            Prod.mk.injEq] at h
          exact ⟨h.1.symm, h.2⟩
        obtain ⟨hp, hr2⟩ := hentry
        have hr1ne : r1 ≠ [] := by
          intro hh
          rw [hh] at hr1
          simp at hr1
        obtain ⟨u, hu⟩ : ∃ u, r1 = ',' :: u := by
          rcases r1 with _ | ⟨a, u⟩
          · exact absurd rfl hr1ne
          · simp only [List.head?_cons, Option.some.injEq] at hr1
            exact ⟨u, by rw [hr1]⟩
        have h1 : parseNumber (t ++ ext) = some (x, r1 ++ ext) :=
          parseNumber_append e1 (Or.inl hr1ne)
        have h2 : parseNumber (r1.tail ++ ext) = some (y, r ++ ext) := by
          have := parseNumber_append (v := y) (r := r) (by rw [e2, hr2]) hext
          exact this
        simp only [parseXY, h1, hu, List.cons_append, List.head?_cons, Option.some.injEq,
          if_true, if_pos rfl, List.tail_cons]
        rw [hu] at h2
        simp only [List.tail_cons] at h2
        rw [h2, hp]
    · simp [parseXY, e1, hr1] at h

theorem findSpace_append_space (t r : List Char) (h : ∀ c ∈ t, c ≠ ' ') :
    findSpace (t ++ ' ' :: r) = some t.length := by
  induction t with
  | nil => simp [findSpace]
  | cons c cs ih =>
    have hc : c ≠ ' ' := h c (List.mem_cons_self _ _)
    have ih2 := ih (fun c hh => h c (List.mem_cons_of_mem _ hh))
    simp [findSpace, hc, ih2]

theorem findSpace_none (t : List Char) (h : ∀ c ∈ t, c ≠ ' ') : findSpace t = none := by
  induction t with
  | nil => rfl
  | cons c cs ih =>
    have hc : c ≠ ' ' := h c (List.mem_cons_self _ _)
    have ih2 := ih (fun c hh => h c (List.mem_cons_of_mem _ hh))
    simp [findSpace, hc, ih2]

theorem drop_append_cons (t r : List Char) (c : Char) :
    (t ++ c :: r).drop (t.length + 1) = r := by
  have h1 : t ++ c :: r = (t ++ [c]) ++ r := by simp
  have h2 : t.length + 1 = (t ++ [c]).length := by simp
  rw [h1, h2, List.drop_left]

/-- Well-formed space-joinable token list: every token is nonempty, contains
no whitespace, and parses entirely as one `"x,y"` pair. -/
def tokensOK (ts : List (List Char)) : Prop :=
  ∀ t ∈ ts, t ≠ [] ∧ (∀ c ∈ t, isCWhitespace c = false) ∧
    parseXY t = some (tokenPoint t, [])

theorem joinSp_length_ge (ts : List (List Char)) (h : ∀ t ∈ ts, t ≠ []) :
    ts.length ≤ (joinSp ts).length + 1 := by
  induction ts with
  | nil => simp
  | cons t ts ih =>
    cases ts with
    | nil =>
      simp [joinSp]
    | cons u ts2 =>
      have ht : t ≠ [] := h t (List.mem_cons_self _ _)
      have ih2 := ih (fun w hw => h w (List.mem_cons_of_mem _ hw))
      have hlen : 1 ≤ t.length := by
        rcases t with _ | ⟨a, b⟩
        · exact absurd rfl ht
        · simp
      simp only [joinSp, List.length_cons, List.length_append] at ih2 ⊢
      omega

theorem stringToPointsAux_joinSp (ts : List (List Char)) :
    ∀ fuel : ℕ, tokensOK ts → ts.length ≤ fuel →
    stringToPointsAux fuel (joinSp ts) = ts.map tokenPoint := by
  induction ts with
  | nil =>
    intro fuel _ _
    cases fuel with
    | zero => rfl
    | succ f =>
      simp [stringToPointsAux, joinSp, parseXY, parseNumber, skipWs, parseSign, takeDigits]
  | cons t ts ih =>
    intro fuel hts hfuel
    obtain ⟨hne, hnws, hparse⟩ := hts t (List.mem_cons_self _ _)
    cases fuel with
    | zero => simp at hfuel
    | succ f =>
      have hts2 : tokensOK ts := fun u hu => hts u (List.mem_cons_of_mem _ hu)
      have hnsp : ∀ c ∈ t, c ≠ ' ' := by
        intro c hc hsp
        have hw := hnws c hc
        rw [hsp] at hw
        simp [isCWhitespace] at hw
      cases ts with
      | nil =>
        simp only [joinSp]
        simp [stringToPointsAux, hparse, findSpace_none t hnsp]
      | cons u ts2 =>
        have hjoin : joinSp (t :: u :: ts2) = t ++ ' ' :: joinSp (u :: ts2) := rfl
        have hsafe : ∀ c, (' ' :: joinSp (u :: ts2)).head? = some c →
            c.isDigit = false ∧ c ≠ '.' := by
          intro c hc
          simp only [List.head?_cons, Option.some.injEq] at hc
          rw [← hc]
          constructor
          · decide
          · decide
        have hx : parseXY (t ++ ' ' :: joinSp (u :: ts2)) =
            some (tokenPoint t, ' ' :: joinSp (u :: ts2)) := by
          have := parseXY_append hparse (Or.inr hsafe)
          simpa using this
        have hf : findSpace (t ++ ' ' :: joinSp (u :: ts2)) = some t.length :=
          findSpace_append_space t _ hnsp
        rw [hjoin]
        simp only [stringToPointsAux, hx, hf]
        rw [drop_append_cons]
        simp only [List.length_cons] at hfuel
        rw [ih f hts2 (by simp only [List.length_cons]; omega)]
        simp

/-- C3 amended: for every list of space-separated tokens each of which is
entirely a well-formed `"x,y"` pair (nonempty, whitespace-free), the parser
returns exactly the token values in order and never raises an error.  The
original "k-th malformed token yields k-1 points" rule does not hold: a
malformed token whose prefix parses as `"x,y"` contributes that point and
parsing continues at the next space (see the counterexample), and separators
other than a single space truncate parsing early. -/
theorem stringToPoints_spaceJoined (ts : List (List Char)) (hts : tokensOK ts) :
    stringToPoints (joinSp ts) = ts.map tokenPoint := by
  apply stringToPointsAux_joinSp ts _ hts
  have := joinSp_length_ge ts (fun t ht => (hts t ht).1)
  omega

/-! Evaluation helpers: ASCII codes of the digit characters. -/

theorem toNatC0 : ('0' : Char).toNat = 48 := rfl

theorem toNatC1 : ('1' : Char).toNat = 49 := rfl

theorem toNatC2 : ('2' : Char).toNat = 50 := rfl

theorem toNatC3 : ('3' : Char).toNat = 51 := rfl

theorem toNatC4 : ('4' : Char).toNat = 52 := rfl

theorem toNatC5 : ('5' : Char).toNat = 53 := rfl

theorem toNatC6 : ('6' : Char).toNat = 54 := rfl

theorem toNatC7 : ('7' : Char).toNat = 55 := rfl

theorem toNatC8 : ('8' : Char).toNat = 56 := rfl

theorem toNatC9 : ('9' : Char).toNat = 57 := rfl

/-- C3 as stated: for every input string, if the k-th whitespace-separated
token is the first malformed one, `stringToPoints` returns exactly the k-1
points parsed before it (indices 0-based: first malformed token at index k
gives k points before it). -/
def ClaimC3 (s : List Char) : Prop :=
  ∀ k, k < (wordsOf s).length →
    wellFormedTok ((wordsOf s).getD k []) = false →
    (∀ j, j < k → wellFormedTok ((wordsOf s).getD j []) = true) →
    (stringToPoints s).length = k

/-- C3 fails on `"1,2x 3,4"`: the first token `1,2x` is malformed (the parse
of the whole token leaves the trailing `x` unconsumed), so the claim predicts
0 points; but `sscanf` succeeds on the `"1,2"` prefix and `strchr` then jumps
to the next space, so the code returns the 2 points `(1,2)` and `(3,4)`. -/
theorem ClaimC3_counterexample :
    ¬ ClaimC3 ['1', ',', '2', 'x', ' ', '3', ',', '4'] := by
  intro h
  have hw : wordsOf ['1', ',', '2', 'x', ' ', '3', ',', '4'] =
      [['1', ',', '2', 'x'], ['3', ',', '4']] := by decide
  have hx1 : parseXY ['1', ',', '2', 'x', ' ', '3', ',', '4'] =
      some (⟨1, 2⟩, ['x', ' ', '3', ',', '4']) := by
    norm_num +decide [parseXY, parseNumber, parseSign, skipWs, takeDigits, digitsToNat,
      isCWhitespace, toNatC1, toNatC2]
  have hxt : parseXY ['1', ',', '2', 'x'] = some (⟨1, 2⟩, ['x']) := by
    norm_num +decide [parseXY, parseNumber, parseSign, skipWs, takeDigits, digitsToNat,
      isCWhitespace, toNatC1, toNatC2]
  have hx2 : parseXY ['3', ',', '4'] = some (⟨3, 4⟩, []) := by
    norm_num +decide [parseXY, parseNumber, parseSign, skipWs, takeDigits, digitsToNat,
      isCWhitespace, toNatC3, toNatC4]
  have hf1 : findSpace ['1', ',', '2', 'x', ' ', '3', ',', '4'] = some 4 := by decide
  have hf2 : findSpace ['3', ',', '4'] = none := by decide
  have heval : stringToPoints ['1', ',', '2', 'x', ' ', '3', ',', '4'] =
      [⟨1, 2⟩, ⟨3, 4⟩] := by
    rw [stringToPoints,
      show (['1', ',', '2', 'x', ' ', '3', ',', '4'] : List Char).length + 1 = 8 + 1 from rfl]
    simp only [stringToPointsAux, hx1, hf1]
    norm_num
    simp [hx2, hf2]
  have hbad : wellFormedTok ((wordsOf ['1', ',', '2', 'x', ' ', '3', ',', '4']).getD 0 [])
      = false := by
    rw [hw]
    simp [wellFormedTok, hxt]
  have h0 := h 0 (by rw [hw]; norm_num) hbad (by intro j hj; omega)
  rw [heval] at h0
  simp at h0

theorem stringToPoints_spaceJoined_witness :
    stringToPoints (joinSp [['1', ',', '2'], ['3', ',', '4']]) =
      [['1', ',', '2'], ['3', ',', '4']].map tokenPoint := by
  apply stringToPoints_spaceJoined
  intro t ht
  simp only [List.mem_cons, List.not_mem_nil, or_false] at ht
  have e1 : parseXY ['1', ',', '2'] = some (⟨1, 2⟩, []) := by
    norm_num +decide [parseXY, parseNumber, parseSign, skipWs, takeDigits, digitsToNat,
      isCWhitespace, toNatC1, toNatC2]
  have e2 : parseXY ['3', ',', '4'] = some (⟨3, 4⟩, []) := by
    norm_num +decide [parseXY, parseNumber, parseSign, skipWs, takeDigits, digitsToNat,
      isCWhitespace, toNatC3, toNatC4]
  rcases ht with rfl | rfl
  · exact ⟨by simp, by decide, by simp [tokenPoint, e1]⟩
  · exact ⟨by simp, by decide, by simp [tokenPoint, e2]⟩

/-! ### Digit-string machinery for the formatter -/

/-- A decimal digit character `'0'..'9'`. -/
def DChar (c : Char) : Prop := ∃ d, d < 10 ∧ c = Char.ofNat (48 + d)

theorem DChar_props {c : Char} (h : DChar c) :
    c.isDigit = true ∧ c.toNat - 48 < 10 ∧ isCWhitespace c = false ∧
    c ≠ '-' ∧ c ≠ '+' ∧ c ≠ '.' ∧ c ≠ ',' ∧ c ≠ ' ' := by
  obtain ⟨d, hd, rfl⟩ := h
  interval_cases d <;> exact ⟨rfl, by decide, rfl, by decide, by decide, by decide,
    by decide, by decide⟩

theorem DChar_zero : DChar '0' := ⟨0, by norm_num, rfl⟩

theorem DChar_val {d : ℕ} (h : d < 10) : (Char.ofNat (48 + d)).toNat = 48 + d := by
  interval_cases d <;> rfl

theorem digitsToNat_foldl_init (l : List Char) (i : ℕ) :
    l.foldl (fun a c => 10 * a + (c.toNat - 48)) i = i * 10 ^ l.length + digitsToNat l := by
  induction l generalizing i with
  | nil => simp [digitsToNat]
  | cons c cs ih =>
    have h1 := ih (10 * i + (c.toNat - 48))
    have h2 := ih (10 * 0 + (c.toNat - 48))
    simp only [List.foldl_cons, List.length_cons]
    rw [h1]
    have h3 : digitsToNat (c :: cs) = (c.toNat - 48) * 10 ^ cs.length + digitsToNat cs := by
      rw [digitsToNat, List.foldl_cons, h2]
      ring_nf
    rw [h3]
    ring

theorem digitsToNat_append (a b : List Char) :
    digitsToNat (a ++ b) = digitsToNat a * 10 ^ b.length + digitsToNat b := by
  rw [digitsToNat, List.foldl_append, digitsToNat_foldl_init]
  rfl

theorem digitsToNat_replicate_zero (j : ℕ) :
    digitsToNat (List.replicate j '0') = 0 := by
  induction j with
  | zero => rfl
  | succ n ih =>
    rw [List.replicate_succ, digitsToNat, List.foldl_cons]
    have : 10 * 0 + (('0' : Char).toNat - 48) = 0 := by decide
    rw [this]
    exact ih

theorem digitsToNat_padLeft (l : List Char) (n : ℕ) :
    digitsToNat (padLeft l n) = digitsToNat l := by
  rw [padLeft, digitsToNat_append, digitsToNat_replicate_zero]
  simp

theorem natToDigitsAux_spec : ∀ fuel n : ℕ, n ≤ fuel →
    digitsToNat (natToDigitsAux fuel n) = n ∧ (∀ c ∈ natToDigitsAux fuel n, DChar c) := by
  intro fuel
  induction fuel with
  | zero =>
    intro n hn
    have : n = 0 := by omega
    subst this
    exact ⟨rfl, by simp [natToDigitsAux]⟩
  | succ f ih =>
    intro n hn
    by_cases h0 : n = 0
    · subst h0
      simp [natToDigitsAux, digitsToNat]
    · have hdiv : n / 10 ≤ f := by omega
      obtain ⟨ihv, ihd⟩ := ih (n / 10) hdiv
      constructor
      · rw [natToDigitsAux, if_neg h0, digitsToNat_append, ihv]
        have hmod : n % 10 < 10 := Nat.mod_lt _ (by norm_num)
        have : digitsToNat [Char.ofNat (48 + n % 10)] = n % 10 := by
          rw [digitsToNat, List.foldl_cons, List.foldl_nil, DChar_val hmod]
          omega
        rw [this]
        simp only [List.length_cons, List.length_nil, pow_one]
        omega
      · intro c hc
        rw [natToDigitsAux, if_neg h0] at hc
        rcases List.mem_append.mp hc with h | h
        · exact ihd c h
        · rw [List.mem_singleton] at h
          exact ⟨n % 10, Nat.mod_lt _ (by norm_num), h⟩

theorem digitsToNat_natToDigits (n : ℕ) : digitsToNat (natToDigits n) = n :=
  (natToDigitsAux_spec n n le_rfl).1

theorem natToDigits_DChar (n : ℕ) : ∀ c ∈ natToDigits n, DChar c :=
  (natToDigitsAux_spec n n le_rfl).2

theorem padLeft_DChar (l : List Char) (n : ℕ) (h : ∀ c ∈ l, DChar c) :
    ∀ c ∈ padLeft l n, DChar c := by
  intro c hc
  rcases List.mem_append.mp hc with h2 | h2
  · rw [List.eq_of_mem_replicate h2]
    exact DChar_zero
  · exact h c h2

/-- A denominator that divides some power of ten divides the power of ten
with its own exponent. -/
theorem den_dvd_ten_pow_self {d k : ℕ} (hd : d ≠ 0) (h : d ∣ 10 ^ k) : d ∣ 10 ^ d := by
  have h10 : (10 : ℕ) ^ d ≠ 0 := by positivity
  rw [← Nat.factorization_le_iff_dvd hd h10]
  intro p
  by_cases hzero : d.factorization p = 0
  · simp [hzero]
  · have hmem : p ∈ d.factorization.support := Finsupp.mem_support_iff.mpr hzero
    rw [Nat.support_factorization] at hmem
    have hp : p.Prime := Nat.prime_of_mem_primeFactors hmem
    have hpd : p ∣ d := Nat.dvd_of_mem_primeFactors hmem
    have hp10 : p ∣ 10 := hp.dvd_of_dvd_pow (hpd.trans h)
    have hfpos : 0 < (10 : ℕ).factorization p :=
      Nat.Prime.factorization_pos_of_dvd hp (by norm_num) hp10
    have hlt : d.factorization p < d := Nat.factorization_lt p hd
    have : (10 ^ d : ℕ).factorization p = d * (10 : ℕ).factorization p := by
      rw [Nat.factorization_pow]
      simp
    rw [this]
    calc d.factorization p ≤ d := le_of_lt hlt
    _ ≤ d * (10 : ℕ).factorization p := Nat.le_mul_of_pos_right d hfpos

/-- The denominator of `i + f/10^L` (naturals `i`, `f`) divides `10^L`. -/
theorem den_add_div_pow (i f L : ℕ) :
    ((i : ℚ) + (f : ℚ) / 10 ^ L).den ∣ 10 ^ L := by
  have hval : (i : ℚ) + (f : ℚ) / 10 ^ L = ((i * 10 ^ L + f : ℕ) : ℚ) / ((10 ^ L : ℕ) : ℚ) := by
    push_cast
    field_simp
  rw [hval]
  have h1 : ((i * 10 ^ L + f : ℕ) : ℚ) / ((10 ^ L : ℕ) : ℚ) =
      Rat.divInt ((i * 10 ^ L + f : ℕ) : ℤ) ((10 ^ L : ℕ) : ℤ) := by
    rw [Rat.divInt_eq_div]
    push_cast
    ring
  rw [h1]
  have h2 := Rat.den_dvd ((i * 10 ^ L + f : ℕ) : ℤ) ((10 ^ L : ℕ) : ℤ)
  exact_mod_cast h2

/-- The value produced by one `%lf` conversion is a finite decimal. -/
theorem parseNumber_decimal {cs : List Char} {v : ℚ} {r : List Char}
    (h : parseNumber cs = some (v, r)) : ∃ k, (v.den : ℕ) ∣ 10 ^ k := by
  have hsgn : (parseSign (skipWs cs)).1 = 1 ∨ (parseSign (skipWs cs)).1 = -1 := by
    rcases skipWs cs with _ | ⟨c, t⟩
    · exact Or.inl rfl
    · by_cases h1 : c = '-'
      · exact Or.inr (by simp [parseSign, h1])
      · by_cases h2 : c = '+' <;> simp [parseSign, h1, h2]
  have hden : ∀ w : ℚ, ∀ k, (w.den : ℕ) ∣ 10 ^ k →
      (((parseSign (skipWs cs)).1 * w).den : ℕ) ∣ 10 ^ k := by
    intro w k hw
    rcases hsgn with hs | hs
    · rw [hs, one_mul]
      exact hw
    · rw [hs]
      have he : (-1 : ℚ) * w = -w := by ring
      rw [he, Rat.neg_den]
      exact hw
  by_cases hdot : (takeDigits (parseSign (skipWs cs)).2).2.head? = some '.'
  · rw [parseNumber, if_pos hdot] at h
    by_cases hguard : (takeDigits (parseSign (skipWs cs)).2).1 = [] ∧
        (takeDigits (takeDigits (parseSign (skipWs cs)).2).2.tail).1 = []
    · rw [if_pos hguard] at h
      simp at h
    · rw [if_neg hguard] at h
      have hv := congrArg Prod.fst (Option.some.inj h)
      simp only at hv
      refine ⟨(takeDigits (takeDigits (parseSign (skipWs cs)).2).2.tail).1.length, ?_⟩
      rw [← hv]
      exact hden _ _ (den_add_div_pow _ _ _)
  · rw [parseNumber, if_neg hdot] at h
    by_cases hip : (takeDigits (parseSign (skipWs cs)).2).1 = []
    · rw [if_pos hip] at h
      simp at h
    · rw [if_neg hip] at h
      have hv := congrArg Prod.fst (Option.some.inj h)
      simp only at hv
      refine ⟨0, ?_⟩
      rw [← hv]
      apply hden _ 0
      simp [Rat.den_natCast]

theorem padLeft_length_ge (l : List Char) (n : ℕ) : n ≤ (padLeft l n).length := by
  simp only [padLeft, List.length_append, List.length_replicate]
  omega

theorem skipWs_cons_no_ws {c : Char} (h : isCWhitespace c = false) (l : List Char) :
    skipWs (c :: l) = c :: l := by
  rw [skipWs, if_neg]
  simp [h]

theorem parseSign_cons_other {c : Char} (h1 : c ≠ '-') (h2 : c ≠ '+') (l : List Char) :
    parseSign (c :: l) = (1, c :: l) := by
  simp [parseSign, h1, h2]

/-- Decomposition of a digit string into its zero-stripped prefix and the
stripped trailing zeros. -/
theorem strip_zeros_decomp (l : List Char) :
    l = ((l.reverse.dropWhile (fun c => c = '0')).reverse) ++
      List.replicate (l.reverse.takeWhile (fun c => c = '0')).length '0' := by
  have h1 : l.reverse.takeWhile (fun c => c = '0') ++ l.reverse.dropWhile (fun c => c = '0') =
      l.reverse := List.takeWhile_append_dropWhile _ _
  have h3 : (l.reverse.takeWhile (fun c => c = '0')).reverse =
      List.replicate (l.reverse.takeWhile (fun c => c = '0')).length '0' := by
    have hmem : ∀ b ∈ l.reverse.takeWhile (fun c => c = '0'), b = '0' := by
      intro b hb
      have := List.mem_takeWhile_imp hb
      simpa using this
    rw [List.eq_replicate_of_mem hmem, List.reverse_replicate]
    simp
  calc l = l.reverse.reverse := (List.reverse_reverse l).symm
  _ = (l.reverse.takeWhile (fun c => c = '0') ++ l.reverse.dropWhile (fun c => c = '0')).reverse :=
      by rw [h1]
  _ = (l.reverse.dropWhile (fun c => c = '0')).reverse ++
      (l.reverse.takeWhile (fun c => c = '0')).reverse := by rw [List.reverse_append]
  _ = _ := by rw [h3]

/-- The formatted string of a finite decimal parses back to exactly that
rational, leaving a safe continuation untouched. -/
theorem parseNumber_fmtQ (q : ℚ) (hq : ∃ k, (q.den : ℕ) ∣ 10 ^ k) (ext : List Char)
    (hext : ∀ c, ext.head? = some c → c.isDigit = false ∧ c ≠ '.') :
    parseNumber (fmtQ q ++ ext) = some (q, ext) := by
  have hdne : q.den ≠ 0 := q.den_nz
  obtain ⟨k0, hk0⟩ := hq
  have hdvd : (q.den : ℕ) ∣ 10 ^ q.den := den_dvd_ten_pow_self hdne hk0
  set m := q.num.natAbs * 10 ^ q.den / q.den with hm_def
  have hm : m * q.den = q.num.natAbs * 10 ^ q.den :=
    Nat.div_mul_cancel (Dvd.dvd.mul_left hdvd q.num.natAbs)
  set ds := padLeft (natToDigits m) (q.den + 1) with hds_def
  have hlen : q.den + 1 ≤ ds.length := padLeft_length_ge _ _
  have hD : ∀ c ∈ ds, DChar c := padLeft_DChar _ _ (natToDigits_DChar m)
  have hdsval : digitsToNat ds = m := by
    rw [hds_def, digitsToNat_padLeft, digitsToNat_natToDigits]
  set ipart := ds.take (ds.length - q.den) with hipart_def
  set fp1 := ds.drop (ds.length - q.den) with hfp1_def
  have hsplit : ipart ++ fp1 = ds := List.take_append_drop _ _
  have hflen : fp1.length = q.den := by
    rw [hfp1_def, List.length_drop]
    omega
  have hilen : 1 ≤ ipart.length := by
    rw [hipart_def, List.length_take]
    omega
  have hvalsplit : digitsToNat ipart * 10 ^ q.den + digitsToNat fp1 = m := by
    have := digitsToNat_append ipart fp1
    rw [hsplit, hdsval, hflen] at this
    omega
  have hDi : ∀ c ∈ ipart, DChar c := fun c hc => hD c (List.mem_of_mem_take hc)
  have hDf : ∀ c ∈ fp1, DChar c := fun c hc => hD c (List.mem_of_mem_drop hc)
  set fp2 := (fp1.reverse.dropWhile (fun c => c = '0')).reverse with hfp2_def
  set z := (fp1.reverse.takeWhile (fun c => c = '0')).length with hz_def
  have hstrip : fp1 = fp2 ++ List.replicate z '0' := strip_zeros_decomp fp1
  have hDf2 : ∀ c ∈ fp2, DChar c := by
    intro c hc
    apply hDf
    rw [hstrip]
    exact List.mem_append.mpr (Or.inl hc)
  have hfpval : digitsToNat fp1 = digitsToNat fp2 * 10 ^ z := by
    rw [hstrip, digitsToNat_append, digitsToNat_replicate_zero, List.length_replicate]
    omega
  have hfplen : fp1.length = fp2.length + z := by
    rw [hstrip, List.length_append, List.length_replicate]
  -- the body after the optional sign
  set body := ipart ++ (if fp2 = [] then ([] : List Char) else '.' :: fp2) ++ ext with hbody_def
  obtain ⟨c0, irest, hic⟩ : ∃ c0 irest, ipart = c0 :: irest := by
    rcases ipart with _ | ⟨c0, irest⟩
    · simp at hilen
    · exact ⟨c0, irest, rfl⟩
  have hc0 : DChar c0 := hDi c0 (by rw [hic]; exact List.mem_cons_self _ _)
  obtain ⟨hc0dig, _, hc0ws, hc0m, hc0p, hc0dot, hc0comma, hc0sp⟩ := DChar_props hc0
  -- takeDigits over the integer part
  have hipdigits : ∀ c ∈ ipart, c.isDigit = true := fun c hc => (DChar_props (hDi c hc)).1
  have htail : ∀ c, ((if fp2 = [] then ([] : List Char) else '.' :: fp2) ++ ext).head? = some c →
      c.isDigit = false := by
    intro c hc
    by_cases hfp2 : fp2 = []
    · rw [if_pos hfp2, List.nil_append] at hc
      exact (hext c hc).1
    · rw [if_neg hfp2, List.cons_append, List.head?_cons, Option.some.injEq] at hc
      rw [← hc]
      decide
  have htake : takeDigits (ipart ++ ((if fp2 = [] then ([] : List Char) else '.' :: fp2) ++ ext)) =
      (ipart, (if fp2 = [] then ([] : List Char) else '.' :: fp2) ++ ext) :=
    takeDigits_of_digits _ _ hipdigits htail
  -- the value identity
  have h10k : ((10 : ℚ)) ^ q.den ≠ 0 := by positivity
  have h10l : ((10 : ℚ)) ^ fp2.length ≠ 0 := by positivity
  have hdenQ : ((q.den : ℚ)) ≠ 0 := by exact_mod_cast hdne
  have habs : ((digitsToNat ipart : ℚ) + (digitsToNat fp2 : ℚ) / 10 ^ fp2.length) =
      (q.num.natAbs : ℚ) / q.den := by
    have hstep : ((digitsToNat ipart : ℚ) + (digitsToNat fp2 : ℚ) / 10 ^ fp2.length) *
        10 ^ q.den = (m : ℚ) := by
      have hkz : (10 : ℚ) ^ q.den = 10 ^ fp2.length * 10 ^ z := by
        rw [← pow_add, ← hfplen, hflen]
      rw [hkz]
      have : ((digitsToNat ipart : ℚ) + (digitsToNat fp2 : ℚ) / 10 ^ fp2.length) *
          (10 ^ fp2.length * 10 ^ z) =
          (digitsToNat ipart : ℚ) * (10 ^ fp2.length * 10 ^ z) +
            (digitsToNat fp2 : ℚ) * 10 ^ z := by
        field_simp
        ring
      rw [this]
      have hcast : (digitsToNat ipart : ℚ) * (10 ^ fp2.length * 10 ^ z) +
          (digitsToNat fp2 : ℚ) * 10 ^ z =
          ((digitsToNat ipart * (10 ^ fp2.length * 10 ^ z) + digitsToNat fp2 * 10 ^ z : ℕ) : ℚ) := by
        push_cast
        ring
      rw [hcast]
      have harith : digitsToNat ipart * (10 ^ fp2.length * 10 ^ z) + digitsToNat fp2 * 10 ^ z
          = m := by
        rw [← pow_add, ← hfplen, hflen, ← hfpval]
        exact hvalsplit
      rw [harith]
    have hm2 : (m : ℚ) * q.den = (q.num.natAbs : ℚ) * 10 ^ q.den := by
      exact_mod_cast hm
    rw [eq_div_iff hdenQ]
    apply mul_right_cancel₀ h10k
    have hc := congrArg (fun t : ℚ => t * (q.den : ℚ)) hstep
    simp only at hc
    rw [hm2] at hc
    calc ((digitsToNat ipart : ℚ) + (digitsToNat fp2 : ℚ) / 10 ^ fp2.length) * (q.den : ℚ) *
        10 ^ q.den
        = ((digitsToNat ipart : ℚ) + (digitsToNat fp2 : ℚ) / 10 ^ fp2.length) * 10 ^ q.den *
          (q.den : ℚ) := by ring
    _ = (q.num.natAbs : ℚ) * 10 ^ q.den := hc
  have hbody2 : body = ipart ++ ((if fp2 = [] then ([] : List Char) else '.' :: fp2) ++ ext) := by
    rw [hbody_def, List.append_assoc]
  have hvqabs : ((digitsToNat ipart : ℚ) + (digitsToNat fp2 : ℚ) / 10 ^ fp2.length) =
      (q.num.natAbs : ℚ) / q.den := habs
  by_cases hneg : q.num < 0
  · -- negative: leading minus sign
    have hfmt : fmtQ q ++ ext = '-' :: body := by
      rw [fmtQ, hbody_def]
      simp only [← hm_def, ← hds_def, ← hipart_def, ← hfp2_def, if_pos hneg]
      simp
    rw [hfmt]
    have hsw : skipWs ('-' :: body) = '-' :: body := skipWs_cons_no_ws (by decide) body
    have hps : parseSign (skipWs ('-' :: body)) = (-1, body) := by
      rw [hsw]
      simp [parseSign]
    have hnabs : ((q.num.natAbs : ℚ)) = -(q.num : ℚ) := by
      have h1 : (q.num.natAbs : ℤ) = -q.num := Int.ofNat_natAbs_of_nonpos (le_of_lt hneg)
      calc ((q.num.natAbs : ℚ)) = (((q.num.natAbs : ℤ)) : ℚ) := (Int.cast_natCast _).symm
      _ = ((-q.num : ℤ) : ℚ) := by rw [h1]
      _ = -(q.num : ℚ) := by push_cast; ring
    have hvq : (-1 : ℚ) * ((digitsToNat ipart : ℚ) + (digitsToNat fp2 : ℚ) / 10 ^ fp2.length)
        = q := by
      rw [hvqabs, hnabs]
      have he : (-1 : ℚ) * (-(q.num : ℚ) / q.den) = (q.num : ℚ) / q.den := by ring
      rw [he]
      exact Rat.num_div_den q
    simp only [parseNumber, hps]
    rw [hbody2, htake]
    by_cases hfp2 : fp2 = []
    · simp only [hfp2, if_true, List.nil_append]
      have hnodot : ¬ ext.head? = some '.' := by
        intro hh
        exact (hext '.' hh).2 rfl
      rw [if_neg hnodot, if_neg (by rw [hic]; simp)]
      rw [hfp2] at hvq
      have hd0 : digitsToNat ([] : List Char) = 0 := rfl
      rw [hd0] at hvq
      simp only [Option.some.injEq, Prod.mk.injEq]
      refine ⟨?_, trivial⟩
      push_cast at hvq ⊢
      linear_combination hvq
    · simp only [if_neg hfp2]
      have hfdigits : ∀ c ∈ fp2, c.isDigit = true := fun c hc => (DChar_props (hDf2 c hc)).1
      have htake2 : takeDigits (fp2 ++ ext) = (fp2, ext) :=
        takeDigits_of_digits _ _ hfdigits (fun c hc => (hext c hc).1)
      simp only [List.cons_append, List.head?_cons, Option.some.injEq, if_pos rfl, if_true,
        List.tail_cons, htake2]
      rw [if_neg (show ¬ (ipart = [] ∧ fp2 = []) from fun hcc => hfp2 hcc.2)]
      rw [hvq]
  · -- nonnegative: no sign character
    have hfmt : fmtQ q ++ ext = body := by
      rw [fmtQ, hbody_def]
      simp only [← hm_def, ← hds_def, ← hipart_def, ← hfp2_def, if_neg hneg]
      simp
    rw [hfmt]
    have hbc : body = c0 :: (irest ++ ((if fp2 = [] then ([] : List Char) else '.' :: fp2)
        ++ ext)) := by
      rw [hbody2, hic]
      simp
    have hsw : skipWs body = body := by
      rw [hbc]
      exact skipWs_cons_no_ws hc0ws _
    have hps : parseSign (skipWs body) = (1, body) := by
      rw [hsw, hbc, parseSign_cons_other hc0m hc0p]
    have hnabs : ((q.num.natAbs : ℚ)) = (q.num : ℚ) := by
      have h1 : (q.num.natAbs : ℤ) = q.num := Int.natAbs_of_nonneg (le_of_not_lt hneg)
      calc ((q.num.natAbs : ℚ)) = (((q.num.natAbs : ℤ)) : ℚ) := (Int.cast_natCast _).symm
      _ = (q.num : ℚ) := by rw [h1]
    have hvq : ((digitsToNat ipart : ℚ) + (digitsToNat fp2 : ℚ) / 10 ^ fp2.length) = q := by
      rw [hvqabs, hnabs]
      exact Rat.num_div_den q
    simp only [parseNumber, hps]
    rw [hbody2, htake]
    by_cases hfp2 : fp2 = []
    · simp only [hfp2, if_true, List.nil_append]
      have hnodot : ¬ ext.head? = some '.' := by
        intro hh
        exact (hext '.' hh).2 rfl
      rw [if_neg hnodot, if_neg (by rw [hic]; simp)]
      rw [hfp2] at hvq
      have hd0 : digitsToNat ([] : List Char) = 0 := rfl
      rw [hd0] at hvq
      simp only [Option.some.injEq, Prod.mk.injEq]
      refine ⟨?_, trivial⟩
      push_cast at hvq ⊢
      linear_combination hvq
    · simp only [if_neg hfp2]
      have hfdigits : ∀ c ∈ fp2, c.isDigit = true := fun c hc => (DChar_props (hDf2 c hc)).1
      have htake2 : takeDigits (fp2 ++ ext) = (fp2, ext) :=
        takeDigits_of_digits _ _ hfdigits (fun c hc => (hext c hc).1)
      simp only [List.cons_append, List.head?_cons, Option.some.injEq, if_pos rfl, if_true,
        List.tail_cons, htake2]
      rw [if_neg (show ¬ (ipart = [] ∧ fp2 = []) from fun hcc => hfp2 hcc.2)]
      have hone : (1 : ℚ) * ((digitsToNat ipart : ℚ) +
          (digitsToNat fp2 : ℚ) / 10 ^ fp2.length) = q := by
        rw [one_mul]
        exact hvq
      rw [hone]

/-! ### The points round trip (pointsToString after stringToPoints) -/

theorem fmtQ_chars (q : ℚ) : ∀ c ∈ fmtQ q, DChar c ∨ c = '-' ∨ c = '.' := by
  intro c hc
  have hD : ∀ x ∈ padLeft (natToDigits (q.num.natAbs * 10 ^ q.den / q.den)) (q.den + 1),
      DChar x := padLeft_DChar _ _ (natToDigits_DChar _)
  simp only [fmtQ, List.mem_append] at hc
  rcases hc with (hc | hc) | hc
  · by_cases hn : q.num < 0
    · rw [if_pos hn] at hc
      simp only [List.mem_singleton] at hc
      exact Or.inr (Or.inl hc)
    · rw [if_neg hn] at hc
      simp at hc
  · exact Or.inl (hD c (List.mem_of_mem_take hc))
  · split at hc
    · simp at hc
    · rcases List.mem_cons.mp hc with hdot | hmem
      · exact Or.inr (Or.inr hdot)
      · have hmem2 : c ∈ (padLeft (natToDigits (q.num.natAbs * 10 ^ q.den / q.den))
            (q.den + 1)).drop
            ((padLeft (natToDigits (q.num.natAbs * 10 ^ q.den / q.den)) (q.den + 1)).length
              - q.den) := by
          have h1 := List.mem_reverse.mp hmem
          have h2 := (List.dropWhile_sublist _).subset h1
          exact List.mem_reverse.mp h2
        exact Or.inl (hD c (List.mem_of_mem_drop hmem2))

theorem fmtQ_ne_nil (q : ℚ) : fmtQ q ≠ [] := by
  have hlen : q.den + 1 ≤
      (padLeft (natToDigits (q.num.natAbs * 10 ^ q.den / q.den)) (q.den + 1)).length :=
    padLeft_length_ge _ _
  simp only [fmtQ]
  intro h
  rcases List.append_eq_nil.mp h with ⟨h1, _⟩
  rcases List.append_eq_nil.mp h1 with ⟨_, hi⟩
  have := congrArg List.length hi
  simp only [List.length_take, List.length_nil] at this
  omega

theorem fmtQ_no_ws (q : ℚ) : ∀ c ∈ fmtQ q, isCWhitespace c = false := by
  intro c hc
  rcases fmtQ_chars q c hc with h | h | h
  · exact (DChar_props h).2.2.1
  · rw [h]; rfl
  · rw [h]; rfl

/-- A formatted `"x,y"` token parses back to its exact point, consuming the
whole token. -/
theorem parseXY_fmtPair (x y : ℚ) (hx : ∃ k, (x.den : ℕ) ∣ 10 ^ k)
    (hy : ∃ k, (y.den : ℕ) ∣ 10 ^ k) :
    parseXY (fmtQ x ++ ',' :: fmtQ y) = some (⟨x, y⟩, []) := by
  have h1 : parseNumber (fmtQ x ++ ',' :: fmtQ y) = some (x, ',' :: fmtQ y) := by
    apply parseNumber_fmtQ x hx
    intro c hc
    simp only [List.head?_cons, Option.some.injEq] at hc
    rw [← hc]
    exact ⟨rfl, by decide⟩
  have h2 : parseNumber (fmtQ y) = some (y, []) := by
    have h := parseNumber_fmtQ y hy [] (by intro c hc; simp at hc)
    simpa using h
  simp only [parseXY, h1, List.head?_cons, Option.some.injEq, if_true, if_pos rfl,
    List.tail_cons, h2]

/-- The two coordinates parsed out of a fully consumed token are finite
decimals. -/
theorem tokenPoint_decimal {t : List Char} {p : Point2f} (h : parseXY t = some (p, [])) :
    (∃ k, (p.x.den : ℕ) ∣ 10 ^ k) ∧ (∃ k, (p.y.den : ℕ) ∣ 10 ^ k) := by
  rcases e1 : parseNumber t with _ | ⟨x, r1⟩
  · simp [parseXY, e1] at h
  · by_cases hr1 : r1.head? = some ','
    · rcases e2 : parseNumber r1.tail with _ | ⟨y, r2⟩
      · simp [parseXY, e1, hr1, e2] at h
      · have hp : p = ⟨x, y⟩ := by
          simp only [parseXY, e1, hr1, if_true, if_pos rfl, e2, Option.some.injEq,
            Prod.mk.injEq] at h
          exact h.1.symm
        subst hp
        exact ⟨parseNumber_decimal e1, parseNumber_decimal e2⟩
    · simp [parseXY, e1, hr1] at h

/-- Reparsing a formatted token gives back its point. -/
theorem tokenPoint_format (p : Point2f) (hx : ∃ k, (p.x.den : ℕ) ∣ 10 ^ k)
    (hy : ∃ k, (p.y.den : ℕ) ∣ 10 ^ k) :
    tokenPoint (fmtQ p.x ++ ',' :: fmtQ p.y) = p := by
  simp [tokenPoint, parseXY_fmtPair p.x p.y hx hy]

/-- The formatted tokens of a list of finite-decimal points form a
well-formed space-joinable token list. -/
theorem tokensOK_format (ps : List Point2f)
    (hdec : ∀ p ∈ ps, (∃ k, (p.x.den : ℕ) ∣ 10 ^ k) ∧ (∃ k, (p.y.den : ℕ) ∣ 10 ^ k)) :
    tokensOK (ps.map (fun p => fmtQ p.x ++ ',' :: fmtQ p.y)) := by
  intro t ht
  simp only [List.mem_map] at ht
  obtain ⟨p, hp, rfl⟩ := ht
  obtain ⟨hx, hy⟩ := hdec p hp
  have hparse : parseXY (fmtQ p.x ++ ',' :: fmtQ p.y) = some (⟨p.x, p.y⟩, []) :=
    parseXY_fmtPair p.x p.y hx hy
  refine ⟨by simp, ?_, ?_⟩
  · intro c hc
    simp only [List.mem_append, List.mem_cons] at hc
    rcases hc with hc | hc | hc
    · exact fmtQ_no_ws _ c hc
    · rw [hc]; rfl
    · exact fmtQ_no_ws _ c hc
  · rw [tokenPoint_format p hx hy, hparse]

/-- C4 as stated: for a points string whose whitespace-separated tokens are
all well-formed `"x,y"` pairs, the parse yields exactly the token values
(same count, same coordinates, which formatting then reproduces), and
re-parsing the formatted string yields the same point list. -/
def ClaimC4 (s : List Char) : Prop :=
  (∀ t ∈ wordsOf s, wellFormedTok t = true) →
    stringToPoints s = (wordsOf s).map tokenPoint ∧
    stringToPoints (pointsToString (stringToPoints s)) = stringToPoints s

/-- C4 fails on `"1,2<TAB>3,4"`: both whitespace-separated tokens are
well-formed, but the code only jumps over `' '` (`strchr(p, ' ')`), so the
tab stops the loop and the second point is silently dropped: the round trip
keeps 1 of the 2 points. -/
theorem ClaimC4_counterexample :
    ¬ ClaimC4 ['1', ',', '2', '\t', '3', ',', '4'] := by
  intro h
  have hw : wordsOf ['1', ',', '2', '\t', '3', ',', '4'] =
      [['1', ',', '2'], ['3', ',', '4']] := by decide
  have hx1 : parseXY ['1', ',', '2', '\t', '3', ',', '4'] =
      some (⟨1, 2⟩, ['\t', '3', ',', '4']) := by
    norm_num +decide [parseXY, parseNumber, parseSign, skipWs, takeDigits, digitsToNat,
      isCWhitespace, toNatC1, toNatC2]
  have hf1 : findSpace ['1', ',', '2', '\t', '3', ',', '4'] = none := by decide
  have heval : stringToPoints ['1', ',', '2', '\t', '3', ',', '4'] = [⟨1, 2⟩] := by
    rw [stringToPoints,
      show (['1', ',', '2', '\t', '3', ',', '4'] : List Char).length + 1 = 7 + 1 from rfl]
    simp only [stringToPointsAux, hx1, hf1]
  have e1 : parseXY ['1', ',', '2'] = some (⟨1, 2⟩, []) := by
    norm_num +decide [parseXY, parseNumber, parseSign, skipWs, takeDigits, digitsToNat,
      isCWhitespace, toNatC1, toNatC2]
  have e2 : parseXY ['3', ',', '4'] = some (⟨3, 4⟩, []) := by
    norm_num +decide [parseXY, parseNumber, parseSign, skipWs, takeDigits, digitsToNat,
      isCWhitespace, toNatC3, toNatC4]
  have hwf : ∀ t ∈ wordsOf ['1', ',', '2', '\t', '3', ',', '4'], wellFormedTok t = true := by
    rw [hw]
    intro t ht
    simp only [List.mem_cons, List.not_mem_nil, or_false] at ht
    rcases ht with rfl | rfl
    · simp [wellFormedTok, e1]
    · simp [wellFormedTok, e2]
  have hlen := congrArg List.length (h hwf).1
  rw [heval, hw] at hlen
  simp at hlen

/-- Values on which the exact-decimal printer `fmtQ` is a faithful model of
`sprintf("%g", ·)`: integers of magnitude below `10^6`.  Such a value has
at most 6 significant digits and decimal exponent below 6, so the double
holding it is exact, `%g` stays in the non-exponent regime and prints the
plain decimal without rounding — exactly `fmtQ`'s output.  Larger or
fractional values can hit `%g`'s 6-significant-digit rounding or exponent
notation (e.g. `1234567` prints as `1.23457e+06`), which the model does
not cover. -/
def fmtExact (q : ℚ) : Prop := q.den = 1 ∧ q.num.natAbs < 1000000

/-- C4 amended: the round trip holds for single-space-separated well-formed
tokens whose coordinates lie in the regime where `%g` prints the exact
plain decimal (integer values of magnitude below `10^6`, see `fmtExact`).
For every list of tokens each of which is nonempty, whitespace-free and
parses entirely as one `"x,y"` pair of such values, parsing their
space-join yields exactly the token values, and formatting that list with
`pointsToString` and re-parsing reproduces the very same point list.
Outside this regime the claim fails twice over: tokens separated by
whitespace other than a single `' '` are dropped by the `strchr(p, ' ')`
jump (see the counterexample), and `%g`'s 6-significant-digit rounding and
exponent notation change the coordinates on longer values. -/
theorem pointsToString_roundTrip (ts : List (List Char)) (hts : tokensOK ts)
    (hex : ∀ t ∈ ts, fmtExact (tokenPoint t).x ∧ fmtExact (tokenPoint t).y) :
    stringToPoints (joinSp ts) = ts.map tokenPoint ∧
    stringToPoints (pointsToString (stringToPoints (joinSp ts))) =
      stringToPoints (joinSp ts) := by
  have h0 : stringToPoints (joinSp ts) = ts.map tokenPoint := by
    apply stringToPointsAux_joinSp ts _ hts
    have := joinSp_length_ge ts (fun t ht => (hts t ht).1)
    omega
  refine ⟨h0, ?_⟩
  rw [h0, pointsToString]
  have hdec : ∀ p ∈ ts.map tokenPoint,
      (∃ k, (p.x.den : ℕ) ∣ 10 ^ k) ∧ (∃ k, (p.y.den : ℕ) ∣ 10 ^ k) := by
    intro p hp
    simp only [List.mem_map] at hp
    obtain ⟨t, ht, rfl⟩ := hp
    obtain ⟨hx, hy⟩ := hex t ht
    exact ⟨⟨0, by rw [hx.1]; simp⟩, ⟨0, by rw [hy.1]; simp⟩⟩
  have hOK := tokensOK_format (ts.map tokenPoint) hdec
  have h1 : stringToPoints (joinSp ((ts.map tokenPoint).map
      (fun p => fmtQ p.x ++ ',' :: fmtQ p.y))) =
      ((ts.map tokenPoint).map (fun p => fmtQ p.x ++ ',' :: fmtQ p.y)).map tokenPoint := by
    apply stringToPointsAux_joinSp _ _ hOK
    have := joinSp_length_ge _ (fun t ht => (hOK t ht).1)
    omega
  rw [h1, List.map_map]
  have h2 : ∀ p ∈ ts.map tokenPoint,
      (tokenPoint ∘ fun p => fmtQ p.x ++ ',' :: fmtQ p.y) p = p := by
    intro p hp
    obtain ⟨hx, hy⟩ := hdec p hp
    exact tokenPoint_format p hx hy
  calc (ts.map tokenPoint).map (tokenPoint ∘ fun p => fmtQ p.x ++ ',' :: fmtQ p.y)
      = (ts.map tokenPoint).map id := List.map_congr_left h2
  _ = ts.map tokenPoint := List.map_id _

theorem pointsToString_roundTrip_witness :
    stringToPoints (joinSp [['5', ',', '6']]) = [['5', ',', '6']].map tokenPoint ∧
    stringToPoints (pointsToString (stringToPoints (joinSp [['5', ',', '6']]))) =
      stringToPoints (joinSp [['5', ',', '6']]) := by
  have e1 : parseXY ['5', ',', '6'] = some (⟨5, 6⟩, []) := by
    norm_num +decide [parseXY, parseNumber, parseSign, skipWs, takeDigits, digitsToNat,
      isCWhitespace, toNatC5, toNatC6]
  have htp : tokenPoint ['5', ',', '6'] = ⟨5, 6⟩ := by
    simp [tokenPoint, e1]
  apply pointsToString_roundTrip
  · intro t ht
    simp only [List.mem_cons, List.not_mem_nil, or_false] at ht
    rcases ht with rfl
    exact ⟨by simp, by decide, by simp [tokenPoint, e1]⟩
  · intro t ht
    simp only [List.mem_cons, List.not_mem_nil, or_false] at ht
    rcases ht with rfl
    rw [htp]
    exact ⟨⟨by norm_num [fmtExact], by norm_num [fmtExact]⟩,
      ⟨by norm_num [fmtExact], by norm_num [fmtExact]⟩⟩

/-! ### Text line continuation and reading order

Models of `testTextLineContinuation` (PageXML.cc:3534) and
`getTextLinesReadingOrder` (PageXML.cc:3789) for the plain-baseline case
(`fake_baseline = false`), after the per-line size guards have passed (each
Baseline with exactly 2 points, each Coords with exactly 4; the C function
throws before the pair scan otherwise).  Doubles are modelled by `ℚ` with
`sqrtQ` for `sqrt` (exact on the perfect squares reached below) and `atan2Q`
for `atan2` (exact on the axis directions reached below).  The C
`unordered_set<int>` is modelled as an insertion-ordered duplicate-free
list; its iteration order only influences results through sums and through
sort keys, which are distinct in every concrete evaluation below. -/

/-- The exact value of the C double constant `M_PI`. -/
def piQ : ℚ := 884279719003555 / 281474976710656

/-- Model of `atan2`, exact on the axis directions (the only directions the
concrete evaluations below reach; a double `atan2` of a generic rational
point is irrational and outside the model, marked by a sentinel). -/
def atan2Q (y x : ℚ) : ℚ :=
  if y = 0 ∧ 0 < x then 0
  else if y = 0 ∧ x < 0 then piQ
  else if x = 0 ∧ 0 < y then piQ / 2
  else if x = 0 ∧ y < 0 then -(piQ / 2)
  else 4

/-- `angleDiff` (PageXML.cc:1608): angle difference accounting for the
discontinuity at `±π`. -/
def angleDiff (a1 a2 : ℚ) : ℚ :=
  let a := a1 - a2
  a + (if a > piQ then -(2 * piQ) else if a < -piQ then 2 * piQ else 0)

/-- `project_2d_to_1d` (PageXML.cc:1597) with the default `yoffset = 0`
(every call in the modelled functions uses the default). -/
def project2dTo1d (points : List Point2f) (axis : Point2f) : List ℚ :=
  let ax := normed axis
  points.map (fun p => p.x * ax.x + p.y * ax.y)

/-- `intersection_1d` (PageXML.cc:1617).  The C function sorts the caller's
variables through its references; every caller below reads the arguments
only before the call, so the pure sorted form is faithful. -/
def intersection1d (a1 a2 b1 b2 : ℚ) : ℚ :=
  let s := if a1 > a2 then ((a2, a1) : ℚ × ℚ) else (a1, a2)
  let t := if b1 > b2 then ((b2, b1) : ℚ × ℚ) else (b1, b2)
  max 0 (min s.2 t.2 - max s.1 t.1)

/-- `IoU_1d` (PageXML.cc:1635); the denominator reads the endpoints after
`intersection_1d` sorted them in place. -/
def IoU1d (a1 a2 b1 b2 : ℚ) : ℚ :=
  let s := if a1 > a2 then ((a2, a1) : ℚ × ℚ) else (a1, a2)
  let t := if b1 > b2 then ((b2, b1) : ℚ × ℚ) else (b1, b2)
  let isect := max 0 (min s.2 t.2 - max s.1 t.1)
  if isect = 0 then 0 else isect / ((s.2 - s.1) + (t.2 - t.1))

/-- The loop of `getBaselineOrientation` (PageXML.cc:1661), carrying
`(angle1st, avgAngle, totlgth)`. -/
def orientationAux : Point2f → List Point2f → Bool → ℚ → ℚ → ℚ → ℚ × ℚ
  | _, [], _, _, avg, tot => (avg, tot)
  | prev, p :: rest, first, a1st, avg, tot =>
    let lgth := cvNorm (p - prev)
    let ang := -(atan2Q (p.y - prev.y) (p.x - prev.x))
    if first then orientationAux p rest false ang (avg + lgth * ang) (tot + lgth)
    else orientationAux p rest false a1st (avg + lgth * (a1st + angleDiff ang a1st)) (tot + lgth)

/-- `getBaselineOrientation` (PageXML.cc:1661): `none` models the NaN
returned for an empty polyline.  (A zero-total-length polyline yields NaN
through `0.0/0.0` in C; the modelled inputs all have nonzero length.) -/
def getBaselineOrientation (points : List Point2f) : Option ℚ :=
  match points with
  | [] => none
  | p :: rest => some ((orientationAux p rest true 0 0 0).1 / (orientationAux p rest true 0 0 0).2)

/-- `getBaselineLength` (PageXML.cc:1691): sum of consecutive-point norms. -/
def getBaselineLength (points : List Point2f) : ℚ :=
  (points.zip points.tail).foldl (fun acc pq => acc + cvNorm (pq.2 - pq.1)) 0

/-- The geometry of one TextLine: its Coords polygon and its Baseline. -/
structure LineGeom where
  coords : List Point2f
  baseline : List Point2f

instance : Inhabited LineGeom := ⟨⟨[], []⟩⟩

/-- List indexing with default `0`, the in-range `operator[]` of a
`vector<double>`. -/
def qget (l : List ℚ) (i : ℕ) : ℚ := l.getD i 0

/-- In-range `lines[i]` access on the vector of lines. -/
def lineAt (lines : List LineGeom) (i : ℕ) : LineGeom := lines.getD i default

/-- The baseline angle of one line as read inside the pair scan (the `none`
case is unreached: the function has already thrown unless every baseline has
exactly 2 points). -/
def angleOf (l : LineGeom) : ℚ :=
  match getBaselineOrientation l.baseline with
  | some a => a
  | none => 0

/-- The normalized baseline direction of one line (PageXML.cc:3584-3587). -/
def pairDir (l : LineGeom) : Point2f := normed (pt l.baseline 1 - pt l.baseline 0)

/-- The length-weighted shared horizontal axis of a directed pair
(PageXML.cc:3588). -/
def pairHoriz (ln lm : LineGeom) : Point2f :=
  (1 / (getBaselineLength ln.baseline + getBaselineLength lm.baseline)) •
    (getBaselineLength ln.baseline • pairDir ln + getBaselineLength lm.baseline • pairDir lm)

/-- `n`'s baseline projected onto the shared axis (PageXML.cc:3590). -/
def pairHn (ln lm : LineGeom) : List ℚ := project2dTo1d ln.baseline (pairHoriz ln lm)

/-- `m`'s baseline projected onto the shared axis (PageXML.cc:3591). -/
def pairHm (ln lm : LineGeom) : List ℚ := project2dTo1d lm.baseline (pairHoriz ln lm)

/-- The direction sign along the shared axis (PageXML.cc:3594). -/
def pairDirect (ln lm : LineGeom) : ℚ :=
  if qget (pairHn ln lm) 0 < qget (pairHn ln lm) 1 then 1 else -1

/-- The four coords-edge intersections of a pair (PageXML.cc:3610-3613). -/
def pairI1 (ln lm : LineGeom) : Bool × Point2f :=
  intersection (pt ln.coords 0) (pt ln.coords 1) (pt lm.coords 0) (pt lm.coords 3) ⟨0, 0⟩

def pairI2 (ln lm : LineGeom) : Bool × Point2f :=
  intersection (pt ln.coords 3) (pt ln.coords 2) (pt lm.coords 0) (pt lm.coords 3) ⟨0, 0⟩

def pairI3 (ln lm : LineGeom) : Bool × Point2f :=
  intersection (pt lm.coords 0) (pt lm.coords 1) (pt ln.coords 1) (pt ln.coords 2) ⟨0, 0⟩

def pairI4 (ln lm : LineGeom) : Bool × Point2f :=
  intersection (pt lm.coords 3) (pt lm.coords 2) (pt ln.coords 1) (pt ln.coords 2) ⟨0, 0⟩

/-- The two baseline-prolongation intersections (PageXML.cc:3625-3626). -/
def pairJ1 (ln lm : LineGeom) : Bool × Point2f :=
  intersection (pt ln.baseline 0) (pt ln.baseline 1) (pt lm.coords 0) (pt lm.coords 3) ⟨0, 0⟩

def pairJ2 (ln lm : LineGeom) : Bool × Point2f :=
  intersection (pt lm.baseline 1) (pt lm.baseline 0) (pt ln.coords 1) (pt ln.coords 2) ⟨0, 0⟩

/-- The coords prolongation factor (PageXML.cc:3614-3620). -/
def pairCoordsFact (ln lm : LineGeom) : ℚ :=
  let vert_nm_n := project2dTo1d [(pairI1 ln lm).2, (pairI2 ln lm).2]
      (pt lm.coords 3 - pt lm.coords 0)
  let vert_nm_m := project2dTo1d lm.coords (pt lm.coords 3 - pt lm.coords 0)
  let vert_mn_n := project2dTo1d ln.coords (pt ln.coords 2 - pt ln.coords 1)
  let vert_mn_m := project2dTo1d [(pairI3 ln lm).2, (pairI4 ln lm).2]
      (pt ln.coords 2 - pt ln.coords 1)
  let coords_fact_nm := intersection1d (qget vert_nm_n 0) (qget vert_nm_n 1)
      (qget vert_nm_m 0) (qget vert_nm_m 3) / cvNorm (pt lm.coords 3 - pt lm.coords 0)
  let coords_fact_mn := intersection1d (qget vert_mn_n 1) (qget vert_mn_n 2)
      (qget vert_mn_m 0) (qget vert_mn_m 1) / cvNorm (pt ln.coords 2 - pt ln.coords 1)
  (1 / 2 : ℚ) * (coords_fact_nm + coords_fact_mn)

/-- The baseline alignment factor (PageXML.cc:3625-3631). -/
def pairBlineFact (ln lm : LineGeom) : ℚ :=
  let bline_fact_nm := cvNorm ((pairJ1 ln lm).2 - pt lm.baseline 0) /
      cvNorm (pt lm.coords 3 - pt lm.coords 0)
  let bline_fact_mn := cvNorm ((pairJ2 ln lm).2 - pt ln.baseline 1) /
      cvNorm (pt ln.coords 2 - pt ln.coords 1)
  (1 / 2 : ℚ) * ((1 - bline_fact_nm) + (1 - bline_fact_mn))

/-- The combined prolongation factor (PageXML.cc:3634-3635): the source
writes `alpha*bline_fact + (1.0-0.8)*coords_fact` with `alpha = 0.8`. -/
def pairProlong (ln lm : LineGeom) : ℚ :=
  (8 / 10 : ℚ) * pairBlineFact ln lm + (1 - 8 / 10) * pairCoordsFact ln lm

/-- The body of the directed-pair scan of `testTextLineContinuation`
(PageXML.cc:3576-3640) for one pair `(n, m)` of lines: `none` models a
`continue` (any failed test or degenerate intersection), `some` carries the
prolongation factor and the direction that the accepted pair records. -/
def pairContinuation (ln lm : LineGeom) (maxAngleDiff maxHorizIoU minProlongFact : ℚ) :
    Option (ℚ × ℚ) :=
  if fabsQ (angleDiff (angleOf ln) (angleOf lm)) > maxAngleDiff then none
  else if pairDirect ln lm * qget (pairHm ln lm) 0 <
      pairDirect ln lm * qget (pairHn ln lm) 0 then none
  else if IoU1d (qget (pairHn ln lm) 0) (qget (pairHn ln lm) 1)
      (qget (pairHm ln lm) 0) (qget (pairHm ln lm) 1) > maxHorizIoU then none
  else if (pairI1 ln lm).1 = false then none
  else if (pairI2 ln lm).1 = false then none
  else if (pairI3 ln lm).1 = false then none
  else if (pairI4 ln lm).1 = false then none
  else if (pairJ1 ln lm).1 = false then none
  else if (pairJ2 ln lm).1 = false then none
  else if pairProlong ln lm < minProlongFact then none
  else some (pairProlong ln lm, pairDirect ln lm)

/-- `unordered_set<int>::insert`, on the insertion-ordered list model. -/
def insertSet (s : List ℕ) (x : ℕ) : List ℕ := if x ∈ s then s else s ++ [x]

/-- Index of the first group containing either line of a pair (the `k` scan
of PageXML.cc:3646-3652). -/
def findGroup : List (List ℕ) → ℕ → ℕ → Option ℕ
  | [], _, _ => none
  | g :: gs, n, m =>
    if n ∈ g ∨ m ∈ g then some 0
    else (findGroup gs n m).map (· + 1)

/-- The four parallel group vectors of `testTextLineContinuation`. -/
structure GroupState where
  groups : List (List ℕ)
  orders : List (List ℕ)
  scores : List (List ℚ)
  directs : List ℚ

/-- The group update for one accepted pair (PageXML.cc:3641-3666): the first
group containing either line is extended, otherwise a new group is
appended. -/
def addPair (st : GroupState) (n m : ℕ) (pf direct : ℚ) : GroupState :=
  match findGroup st.groups n m with
  | some k =>
    { groups := st.groups.set k (insertSet (insertSet (st.groups.getD k []) n) m)
      orders := st.orders.set k (st.orders.getD k [] ++ [n, m])
      scores := st.scores.set k (st.scores.getD k [] ++ [pf])
      directs := st.directs.set k direct }
  | none =>
    { groups := st.groups ++ [insertSet (insertSet [] n) m]
      orders := st.orders ++ [[n, m]]
      scores := st.scores ++ [[pf]]
      directs := st.directs ++ [direct] }

/-- One iteration of the directed-pair scan. -/
def pairStep (lines : List LineGeom) (maxAngleDiff maxHorizIoU minProlongFact : ℚ)
    (st : GroupState) (n m : ℕ) : GroupState :=
  if n = m then st else
  match pairContinuation (lineAt lines n) (lineAt lines m)
      maxAngleDiff maxHorizIoU minProlongFact with
  | none => st
  | some (pf, direct) => addPair st n m pf direct

/-- The full directed-pair scan (`n` outer, `m` inner, as in the source). -/
def scanPairs (lines : List LineGeom) (maxAngleDiff maxHorizIoU minProlongFact : ℚ) :
    GroupState :=
  (List.range lines.length).foldl
    (fun st n => (List.range lines.length).foldl
      (fun st2 m => pairStep lines maxAngleDiff maxHorizIoU minProlongFact st2 n m) st)
    ⟨[], [], [], []⟩

/-- Stable insertion of an index into a key-sorted index list. -/
def insertSorted (key : ℕ → ℚ) (i : ℕ) : List ℕ → List ℕ
  | [] => [i]
  | j :: rest => if key i < key j then i :: j :: rest else j :: insertSorted key i rest

/-- Model of `cv::sortIdx` on a vector of keys, ascending or descending.
(The OpenCV sort is not stable; all the concrete evaluations below have
pairwise distinct keys, where any correct sort agrees with this one.) -/
def sortIdx (keys : List ℚ) (asc : Bool) : List ℕ :=
  if asc then
    (List.range keys.length).foldl (fun acc i => insertSorted (fun t => qget keys t) i acc) []
  else
    (List.range keys.length).foldl (fun acc i => insertSorted (fun t => -(qget keys t)) i acc) []

/-- The total baseline length of a group (PageXML.cc:3683). -/
def groupTotLength (lines : List LineGeom) (idx : List ℕ) : ℚ :=
  idx.foldl (fun a i => a + getBaselineLength (lineAt lines i).baseline) 0

/-- The length-weighted horizontal direction of a group
(PageXML.cc:3680-3687). -/
def groupHoriz (lines : List LineGeom) (idx : List ℕ) : Point2f :=
  (1 / groupTotLength lines idx) • (idx.foldl (fun a i =>
      let tmp := pt (lineAt lines i).baseline 1 - pt (lineAt lines i).baseline 0
      a + (getBaselineLength (lineAt lines i).baseline / cvNorm tmp) • tmp)
    (⟨0, 0⟩ : Point2f))

/-- The projected baselines of a group (PageXML.cc:3690-3692). -/
def groupBlines (lines : List LineGeom) (idx : List ℕ) : List (List ℚ) :=
  idx.map (fun i => project2dTo1d (lineAt lines i).baseline (groupHoriz lines idx))

/-- The high-overlap test that triggers the stricter recursion
(PageXML.cc:3694-3703). -/
def groupRecurse (maxI : ℚ) (blines : List (List ℚ)) : Bool :=
  (List.range blines.length).any (fun j =>
    (List.range blines.length).any (fun i =>
      decide (j < i) && decide (IoU1d (qget (blines.getD j []) 0) (qget (blines.getD j []) 1)
        (qget (blines.getD i []) 0) (qget (blines.getD i []) 1) > maxI)))

/-- The baseline centers of a group (PageXML.cc:3741-3743). -/
def groupCent (lines : List LineGeom) (idx : List ℕ) : List Point2f :=
  idx.map (fun i =>
    (1 / 2 : ℚ) • (pt (lineAt lines i).baseline 0 + pt (lineAt lines i).baseline 1))

/-- The group-adjustment step of `testTextLineContinuation`
(PageXML.cc:3675-3765) for one group entry `(group, order, scores, direct)`.
`rec` is the recursive call with stricter thresholds.  Result: the kept
`(order, scores)` of the entry (`none` when the entry is erased because the
recursion found no groups; the C `k--` plus `continue` is exactly "drop this
entry and move on"), together with the extra group orders and scores that
the recursion split off. -/
def adjustEntry (rec : List LineGeom → ℚ → ℚ → ℚ → List (List ℕ) × List ℚ × ℕ)
    (lines : List LineGeom) (maxA maxI minP : ℚ)
    (e : List ℕ × List ℕ × List ℚ × ℚ) :
    Option (List ℕ × List ℚ) × List (List ℕ) × List ℚ :=
  let g := e.1
  let sc := e.2.2.1
  if 1 < sc.length then
    if groupRecurse maxI (groupBlines lines g) then
      let r := rec (g.map (fun i => lineAt lines i))
        (maxA * (9 / 10)) (maxI * (9 / 10)) (minP / (9 / 10))
      match r.1 with
      | [] => (none, [], [])
      | o0 :: orest =>
        let mapped := (o0 :: orest).map (fun os => os.map (fun i => g.getD i 0))
        (some (mapped.headD [], [qget r.2.1 0]),
          mapped.drop 1,
          (List.range orest.length).map (fun j => qget r.2.1 (j + 1)))
    else
      let hpos := project2dTo1d (groupCent lines g) (groupHoriz lines g)
      let sidx := sortIdx hpos (decide (e.2.2.2 = 1))
      let score := (sc.foldl (· + ·) 0) / (sc.length : ℚ)
      (some (sidx.map (fun j => g.getD j 0), [score]), [], [])
  else (some (e.2.1, sc), [], [])

/-- The post-scan part of `testTextLineContinuation` (PageXML.cc:3670-3766):
every group entry is adjusted (kept entries in place, erased entries
dropped), the per-group head scores are collected, and the extra groups
split off by recursion are appended after the loop. -/
def processGroups (rec : List LineGeom → ℚ → ℚ → ℚ → List (List ℕ) × List ℚ × ℕ)
    (lines : List LineGeom) (maxA maxI minP : ℚ) (st : GroupState) :
    List (List ℕ) × List ℚ × ℕ :=
  let entries := st.groups.zip (st.orders.zip (st.scores.zip st.directs))
  let processed := entries.map (adjustEntry rec lines maxA maxI minP)
  let kept := processed.filterMap Prod.fst
  let extraOrds := (processed.map (fun pr => pr.2.1)).flatten
  let extraScs := (processed.map (fun pr => pr.2.2)).flatten
  (kept.map Prod.fst ++ extraOrds, (kept.map (fun e2 => qget e2.2 0)) ++ extraScs, kept.length)

/-- `testTextLineContinuation` (PageXML.cc:3534) after the per-line guards:
the directed-pair scan followed by the group adjustment, returning
`(line_group_order, line_group_score, number of join groups)`.  The
self-recursion with stricter thresholds is bounded by explicit fuel (no
concrete evaluation below triggers it). -/
def testTextLineContinuationGo : ℕ → List LineGeom → ℚ → ℚ → ℚ →
    List (List ℕ) × List ℚ × ℕ
  | 0, _, _, _, _ => ([], [], 0)
  | fuel + 1, lines, maxA, maxI, minP =>
    processGroups (fun ls a b c => testTextLineContinuationGo fuel ls a b c)
      lines maxA maxI minP (scanPairs lines maxA maxI minP)

/-- `getTextLinesReadingOrder` (PageXML.cc:3789) for the plain-baseline
case: join groups from `testTextLineContinuation`, singleton groups for
lines in no join group (membership tested against the first `numJoins`
returned orders, as in the source), groups sorted by the projection of
their weighted baseline centers onto the vertical axis, concatenated. -/
def getTextLinesReadingOrder (lines : List LineGeom) (maxA maxI minP : ℚ) : List ℕ :=
  if lines.length = 0 then [] else
  let r := testTextLineContinuationGo (lines.length + 1) lines maxA maxI minP
  let lineGroups := r.1
  let numJoins := r.2.2
  let lengths := lines.map (fun l => getBaselineLength l.baseline)
  let totlength := lengths.foldl (· + ·) 0
  let horiz := (1 / totlength) • ((List.range lines.length).foldl (fun a n =>
      let tmp := pt (lineAt lines n).baseline 1 - pt (lineAt lines n).baseline 0
      a + (qget lengths n / cvNorm tmp) • tmp) (⟨0, 0⟩ : Point2f))
  let inJoin := fun n => (List.range numJoins).any (fun i => decide (n ∈ lineGroups.getD i []))
  let groups2 := lineGroups ++
      ((List.range lines.length).filter (fun n => !(inJoin n))).map (fun n => [n])
  let cent := groups2.map (fun g =>
      let tot := g.foldl (fun a n => a + qget lengths n) 0
      (1 / tot) • (g.foldl (fun a n =>
        a + (qget lengths n) •
          ((1 / 2 : ℚ) • (pt (lineAt lines n).baseline 0 + pt (lineAt lines n).baseline 1)))
        (⟨0, 0⟩ : Point2f)))
  let vert : Point2f := ⟨-horiz.y, horiz.x⟩
  let vpos := project2dTo1d cent vert
  let sidx := sortIdx vpos true
  (sidx.map (fun i => groups2.getD i [])).flatten

/-! ### C1: the reading order on a concrete four-line page -/

def cexLine0 : LineGeom := ⟨[⟨12, 10⟩, ⟨16, 10⟩, ⟨16, 14⟩, ⟨12, 14⟩], [⟨12, 12⟩, ⟨16, 12⟩]⟩

def cexLine1 : LineGeom := ⟨[⟨18, 11⟩, ⟨22, 11⟩, ⟨22, 15⟩, ⟨18, 15⟩], [⟨18, 13⟩, ⟨22, 13⟩]⟩

def cexLine2 : LineGeom := ⟨[⟨0, 8⟩, ⟨4, 8⟩, ⟨4, 12⟩, ⟨0, 12⟩], [⟨0, 10⟩, ⟨4, 10⟩]⟩

def cexLine3 : LineGeom := ⟨[⟨6, 9⟩, ⟨10, 9⟩, ⟨10, 13⟩, ⟨6, 13⟩], [⟨6, 11⟩, ⟨10, 11⟩]⟩

/-- Four single-segment polystripe TextLines on one page: two rows of two
lines each, with the rows sloping down by one unit per line so that every
horizontally consecutive pair is an accepted continuation. -/
def cexLines : List LineGeom := [cexLine0, cexLine1, cexLine2, cexLine3]

theorem cexPair01 : pairContinuation cexLine0 cexLine1 (3/20) (3/20) (7/10) = some (3/4, 1) := by
  norm_num [cexLine0, cexLine1, pairContinuation, pairDir, pairHoriz, pairHn, pairHm,
    pairDirect, pairI1, pairI2, pairI3, pairI4, pairJ1, pairJ2, pairCoordsFact,
    pairBlineFact, pairProlong, angleOf, getBaselineOrientation,
    orientationAux, getBaselineLength, atan2Q, angleDiff, piQ, project2dTo1d,
    intersection1d, IoU1d, intersection, normed, cvNorm, sqrtQ, isqrtNat, isqrtAux,
    fabsQ, pt, qget, Point2f.sub_def, Point2f.add_def, Point2f.smul_def]

theorem cexPair02 : pairContinuation cexLine0 cexLine2 (3/20) (3/20) (7/10) = none := by
  norm_num [cexLine0, cexLine2, pairContinuation, pairDir, pairHoriz, pairHn, pairHm,
    pairDirect, pairI1, pairI2, pairI3, pairI4, pairJ1, pairJ2, pairCoordsFact,
    pairBlineFact, pairProlong, angleOf, getBaselineOrientation,
    orientationAux, getBaselineLength, atan2Q, angleDiff, piQ, project2dTo1d,
    intersection1d, IoU1d, intersection, normed, cvNorm, sqrtQ, isqrtNat, isqrtAux,
    fabsQ, pt, qget, Point2f.sub_def, Point2f.add_def, Point2f.smul_def]

theorem cexPair03 : pairContinuation cexLine0 cexLine3 (3/20) (3/20) (7/10) = none := by
  norm_num [cexLine0, cexLine3, pairContinuation, pairDir, pairHoriz, pairHn, pairHm,
    pairDirect, pairI1, pairI2, pairI3, pairI4, pairJ1, pairJ2, pairCoordsFact,
    pairBlineFact, pairProlong, angleOf, getBaselineOrientation,
    orientationAux, getBaselineLength, atan2Q, angleDiff, piQ, project2dTo1d,
    intersection1d, IoU1d, intersection, normed, cvNorm, sqrtQ, isqrtNat, isqrtAux,
    fabsQ, pt, qget, Point2f.sub_def, Point2f.add_def, Point2f.smul_def]

theorem cexPair10 : pairContinuation cexLine1 cexLine0 (3/20) (3/20) (7/10) = none := by
  norm_num [cexLine1, cexLine0, pairContinuation, pairDir, pairHoriz, pairHn, pairHm,
    pairDirect, pairI1, pairI2, pairI3, pairI4, pairJ1, pairJ2, pairCoordsFact,
    pairBlineFact, pairProlong, angleOf, getBaselineOrientation,
    orientationAux, getBaselineLength, atan2Q, angleDiff, piQ, project2dTo1d,
    intersection1d, IoU1d, intersection, normed, cvNorm, sqrtQ, isqrtNat, isqrtAux,
    fabsQ, pt, qget, Point2f.sub_def, Point2f.add_def, Point2f.smul_def]

theorem cexPair12 : pairContinuation cexLine1 cexLine2 (3/20) (3/20) (7/10) = none := by
  norm_num [cexLine1, cexLine2, pairContinuation, pairDir, pairHoriz, pairHn, pairHm,
    pairDirect, pairI1, pairI2, pairI3, pairI4, pairJ1, pairJ2, pairCoordsFact,
    pairBlineFact, pairProlong, angleOf, getBaselineOrientation,
    orientationAux, getBaselineLength, atan2Q, angleDiff, piQ, project2dTo1d,
    intersection1d, IoU1d, intersection, normed, cvNorm, sqrtQ, isqrtNat, isqrtAux,
    fabsQ, pt, qget, Point2f.sub_def, Point2f.add_def, Point2f.smul_def]

theorem cexPair13 : pairContinuation cexLine1 cexLine3 (3/20) (3/20) (7/10) = none := by
  norm_num [cexLine1, cexLine3, pairContinuation, pairDir, pairHoriz, pairHn, pairHm,
    pairDirect, pairI1, pairI2, pairI3, pairI4, pairJ1, pairJ2, pairCoordsFact,
    pairBlineFact, pairProlong, angleOf, getBaselineOrientation,
    orientationAux, getBaselineLength, atan2Q, angleDiff, piQ, project2dTo1d,
    intersection1d, IoU1d, intersection, normed, cvNorm, sqrtQ, isqrtNat, isqrtAux,
    fabsQ, pt, qget, Point2f.sub_def, Point2f.add_def, Point2f.smul_def]

theorem cexPair20 : pairContinuation cexLine2 cexLine0 (3/20) (3/20) (7/10) = none := by
  norm_num [cexLine2, cexLine0, pairContinuation, pairDir, pairHoriz, pairHn, pairHm,
    pairDirect, pairI1, pairI2, pairI3, pairI4, pairJ1, pairJ2, pairCoordsFact,
    pairBlineFact, pairProlong, angleOf, getBaselineOrientation,
    orientationAux, getBaselineLength, atan2Q, angleDiff, piQ, project2dTo1d,
    intersection1d, IoU1d, intersection, normed, cvNorm, sqrtQ, isqrtNat, isqrtAux,
    fabsQ, pt, qget, Point2f.sub_def, Point2f.add_def, Point2f.smul_def]

theorem cexPair21 : pairContinuation cexLine2 cexLine1 (3/20) (3/20) (7/10) = none := by
  norm_num [cexLine2, cexLine1, pairContinuation, pairDir, pairHoriz, pairHn, pairHm,
    pairDirect, pairI1, pairI2, pairI3, pairI4, pairJ1, pairJ2, pairCoordsFact,
    pairBlineFact, pairProlong, angleOf, getBaselineOrientation,
    orientationAux, getBaselineLength, atan2Q, angleDiff, piQ, project2dTo1d,
    intersection1d, IoU1d, intersection, normed, cvNorm, sqrtQ, isqrtNat, isqrtAux,
    fabsQ, pt, qget, Point2f.sub_def, Point2f.add_def, Point2f.smul_def]

theorem cexPair23 : pairContinuation cexLine2 cexLine3 (3/20) (3/20) (7/10) = some (3/4, 1) := by
  norm_num [cexLine2, cexLine3, pairContinuation, pairDir, pairHoriz, pairHn, pairHm,
    pairDirect, pairI1, pairI2, pairI3, pairI4, pairJ1, pairJ2, pairCoordsFact,
    pairBlineFact, pairProlong, angleOf, getBaselineOrientation,
    orientationAux, getBaselineLength, atan2Q, angleDiff, piQ, project2dTo1d,
    intersection1d, IoU1d, intersection, normed, cvNorm, sqrtQ, isqrtNat, isqrtAux,
    fabsQ, pt, qget, Point2f.sub_def, Point2f.add_def, Point2f.smul_def]

theorem cexPair30 : pairContinuation cexLine3 cexLine0 (3/20) (3/20) (7/10) = some (3/4, 1) := by
  norm_num [cexLine3, cexLine0, pairContinuation, pairDir, pairHoriz, pairHn, pairHm,
    pairDirect, pairI1, pairI2, pairI3, pairI4, pairJ1, pairJ2, pairCoordsFact,
    pairBlineFact, pairProlong, angleOf, getBaselineOrientation,
    orientationAux, getBaselineLength, atan2Q, angleDiff, piQ, project2dTo1d,
    intersection1d, IoU1d, intersection, normed, cvNorm, sqrtQ, isqrtNat, isqrtAux,
    fabsQ, pt, qget, Point2f.sub_def, Point2f.add_def, Point2f.smul_def]

theorem cexPair31 : pairContinuation cexLine3 cexLine1 (3/20) (3/20) (7/10) = none := by
  norm_num [cexLine3, cexLine1, pairContinuation, pairDir, pairHoriz, pairHn, pairHm,
    pairDirect, pairI1, pairI2, pairI3, pairI4, pairJ1, pairJ2, pairCoordsFact,
    pairBlineFact, pairProlong, angleOf, getBaselineOrientation,
    orientationAux, getBaselineLength, atan2Q, angleDiff, piQ, project2dTo1d,
    intersection1d, IoU1d, intersection, normed, cvNorm, sqrtQ, isqrtNat, isqrtAux,
    fabsQ, pt, qget, Point2f.sub_def, Point2f.add_def, Point2f.smul_def]

theorem cexPair32 : pairContinuation cexLine3 cexLine2 (3/20) (3/20) (7/10) = none := by
  norm_num [cexLine3, cexLine2, pairContinuation, pairDir, pairHoriz, pairHn, pairHm,
    pairDirect, pairI1, pairI2, pairI3, pairI4, pairJ1, pairJ2, pairCoordsFact,
    pairBlineFact, pairProlong, angleOf, getBaselineOrientation,
    orientationAux, getBaselineLength, atan2Q, angleDiff, piQ, project2dTo1d,
    intersection1d, IoU1d, intersection, normed, cvNorm, sqrtQ, isqrtNat, isqrtAux,
    fabsQ, pt, qget, Point2f.sub_def, Point2f.add_def, Point2f.smul_def]

theorem pairStepSame (lines : List LineGeom) (a b c : ℚ) (st : GroupState) (n : ℕ) :
    pairStep lines a b c st n n = st := by
  simp [pairStep]

theorem pairStepNone {lines : List LineGeom} {a b c : ℚ} {n m : ℕ} {ln lm : LineGeom}
    (hn : lineAt lines n = ln) (hm : lineAt lines m = lm)
    (h : pairContinuation ln lm a b c = none) (st : GroupState) :
    pairStep lines a b c st n m = st := by
  by_cases hd : n = m
  · simp [pairStep, hd]
  · unfold pairStep
    rw [if_neg hd, hn, hm, h]

theorem pairStepSome {lines : List LineGeom} {a b c : ℚ} {n m : ℕ} {ln lm : LineGeom}
    {pf d : ℚ} (hn : lineAt lines n = ln) (hm : lineAt lines m = lm)
    (h : pairContinuation ln lm a b c = some (pf, d)) (hnm : n ≠ m) (st : GroupState) :
    pairStep lines a b c st n m = addPair st n m pf d := by
  unfold pairStep
  rw [if_neg hnm, hn, hm, h]

theorem cexAdd1 : addPair ⟨[], [], [], []⟩ 0 1 (3/4) 1 =
    ⟨[[0, 1]], [[0, 1]], [[3/4]], [1]⟩ := rfl

theorem cexAdd2 : addPair ⟨[[0, 1]], [[0, 1]], [[3/4]], [1]⟩ 2 3 (3/4) 1 =
    ⟨[[0, 1], [2, 3]], [[0, 1], [2, 3]], [[3/4], [3/4]], [1, 1]⟩ := rfl

theorem cexAdd3 : addPair ⟨[[0, 1], [2, 3]], [[0, 1], [2, 3]], [[3/4], [3/4]], [1, 1]⟩
    3 0 (3/4) 1 =
    ⟨[[0, 1, 3], [2, 3]], [[0, 1, 3, 0], [2, 3]], [[3/4, 3/4], [3/4]], [1, 1]⟩ := rfl

theorem cexScan : scanPairs cexLines (3/20) (3/20) (7/10) =
    ⟨[[0, 1, 3], [2, 3]], [[0, 1, 3, 0], [2, 3]], [[3/4, 3/4], [3/4]], [1, 1]⟩ := by
  have hr : List.range 4 = [0, 1, 2, 3] := rfl
  have g0 : lineAt cexLines 0 = cexLine0 := rfl
  have g1 : lineAt cexLines 1 = cexLine1 := rfl
  have g2 : lineAt cexLines 2 = cexLine2 := rfl
  have g3 : lineAt cexLines 3 = cexLine3 := rfl
  simp only [scanPairs]
  rw [show cexLines.length = 4 from rfl]
  simp only [hr, List.foldl_cons, List.foldl_nil, pairStepSame]
  rw [pairStepSome g0 g1 cexPair01 (by decide), cexAdd1]
  rw [pairStepNone g0 g2 cexPair02]
  rw [pairStepNone g0 g3 cexPair03]
  rw [pairStepNone g1 g0 cexPair10]
  rw [pairStepNone g1 g2 cexPair12]
  rw [pairStepNone g1 g3 cexPair13]
  rw [pairStepNone g2 g0 cexPair20]
  rw [pairStepNone g2 g1 cexPair21]
  rw [pairStepSome g2 g3 cexPair23 (by decide), cexAdd2]
  rw [pairStepSome g3 g0 cexPair30 (by decide), cexAdd3]
  rw [pairStepNone g3 g1 cexPair31]
  rw [pairStepNone g3 g2 cexPair32]

theorem cexTot : groupTotLength cexLines [0, 1, 3] = 12 := by
  have g0 : lineAt cexLines 0 = cexLine0 := rfl
  have g1 : lineAt cexLines 1 = cexLine1 := rfl
  have g3 : lineAt cexLines 3 = cexLine3 := rfl
  norm_num [groupTotLength, g0, g1, g3, cexLine0, cexLine1, cexLine3, getBaselineLength,
    List.zip_cons_cons, List.tail_cons, cvNorm, sqrtQ, isqrtNat, isqrtAux, Point2f.sub_def]

theorem cexHoriz : groupHoriz cexLines [0, 1, 3] = ⟨1, 0⟩ := by
  have g0 : lineAt cexLines 0 = cexLine0 := rfl
  have g1 : lineAt cexLines 1 = cexLine1 := rfl
  have g3 : lineAt cexLines 3 = cexLine3 := rfl
  norm_num [groupHoriz, cexTot, g0, g1, g3, cexLine0, cexLine1, cexLine3,
    getBaselineLength, List.zip_cons_cons, List.tail_cons, cvNorm, sqrtQ, isqrtNat,
    isqrtAux, pt, Point2f.sub_def, Point2f.add_def, Point2f.smul_def, Point2f.mk.injEq]

theorem cexBlines : groupBlines cexLines [0, 1, 3] = [[12, 16], [18, 22], [6, 10]] := by
  have g0 : lineAt cexLines 0 = cexLine0 := rfl
  have g1 : lineAt cexLines 1 = cexLine1 := rfl
  have g3 : lineAt cexLines 3 = cexLine3 := rfl
  norm_num [groupBlines, cexHoriz, g0, g1, g3, cexLine0, cexLine1, cexLine3,
    project2dTo1d, normed, cvNorm, sqrtQ, isqrtNat, isqrtAux, Point2f.smul_def]

theorem cexRec : groupRecurse (3/20) [[12, 16], [18, 22], [6, 10]] = false := by
  have hr3 : List.range 3 = [0, 1, 2] := rfl
  norm_num [groupRecurse, hr3, IoU1d, qget]

theorem cexCent : groupCent cexLines [0, 1, 3] = [⟨14, 12⟩, ⟨20, 13⟩, ⟨8, 11⟩] := by
  have g0 : lineAt cexLines 0 = cexLine0 := rfl
  have g1 : lineAt cexLines 1 = cexLine1 := rfl
  have g3 : lineAt cexLines 3 = cexLine3 := rfl
  norm_num [groupCent, g0, g1, g3, cexLine0, cexLine1, cexLine3, pt,
    Point2f.add_def, Point2f.smul_def, Point2f.mk.injEq]

theorem cexHpos : project2dTo1d [(⟨14, 12⟩ : Point2f), ⟨20, 13⟩, ⟨8, 11⟩] ⟨1, 0⟩ =
    [14, 20, 8] := by
  norm_num [project2dTo1d, normed, cvNorm, sqrtQ, isqrtNat, isqrtAux, Point2f.smul_def]

theorem cexSidx : sortIdx [14, 20, 8] true = [2, 0, 1] := by
  have hr3 : List.range 3 = [0, 1, 2] := rfl
  norm_num [sortIdx, hr3, insertSorted, qget]

theorem cexAdj0 : adjustEntry (fun ls a b c => testTextLineContinuationGo 4 ls a b c)
    cexLines (3/20) (3/20) (7/10) ([0, 1, 3], [0, 1, 3, 0], [3/4, 3/4], 1) =
    (some ([3, 0, 1], [3/4]), [], []) := by
  norm_num [adjustEntry, cexBlines, cexRec, cexCent, cexHoriz, cexHpos, cexSidx]

theorem cexAdj1 : adjustEntry (fun ls a b c => testTextLineContinuationGo 4 ls a b c)
    cexLines (3/20) (3/20) (7/10) ([2, 3], [2, 3], [3/4], 1) =
    (some ([2, 3], [3/4]), [], []) := by
  norm_num [adjustEntry]

theorem goStep (fuel : ℕ) (lines : List LineGeom) (a b c : ℚ) :
    testTextLineContinuationGo (fuel + 1) lines a b c =
      processGroups (fun ls a b c => testTextLineContinuationGo fuel ls a b c)
        lines a b c (scanPairs lines a b c) := rfl

theorem cexProc : processGroups (fun ls a b c => testTextLineContinuationGo 4 ls a b c)
    cexLines (3/20) (3/20) (7/10)
    ⟨[[0, 1, 3], [2, 3]], [[0, 1, 3, 0], [2, 3]], [[3/4, 3/4], [3/4]], [1, 1]⟩ =
    ([[3, 0, 1], [2, 3]], [3/4, 3/4], 2) := by
  norm_num [processGroups, List.zip_cons_cons, cexAdj0, cexAdj1, qget,
    List.filterMap_cons, List.filterMap_nil, List.map_cons, List.map_nil,
    List.flatten, List.length_cons, List.length_nil]

theorem cexGo5 : testTextLineContinuationGo 5 cexLines (3/20) (3/20) (7/10) =
    ([[3, 0, 1], [2, 3]], [3/4, 3/4], 2) := by
  rw [show (5 : ℕ) = 4 + 1 from rfl, goStep, cexScan, cexProc]

theorem cexLens : List.map (fun l => getBaselineLength l.baseline) cexLines = [4, 4, 4, 4] := by
  norm_num [cexLines, cexLine0, cexLine1, cexLine2, cexLine3, getBaselineLength,
    List.zip_cons_cons, List.tail_cons, cvNorm, sqrtQ, isqrtNat, isqrtAux, Point2f.sub_def]

set_option maxHeartbeats 1000000 in
theorem cexEval : getTextLinesReadingOrder cexLines (3/20) (3/20) (7/10) = [2, 3, 3, 0, 1] := by
  have hne : ¬ (cexLines.length = 0) := by simp [cexLines]
  have hr2 : List.range 2 = [0, 1] := rfl
  have hr4 : List.range 4 = [0, 1, 2, 3] := rfl
  have gl0 : lineAt cexLines 0 = cexLine0 := rfl
  have gl1 : lineAt cexLines 1 = cexLine1 := rfl
  have gl2 : lineAt cexLines 2 = cexLine2 := rfl
  have gl3 : lineAt cexLines 3 = cexLine3 := rfl
  simp only [getTextLinesReadingOrder]
  rw [if_neg hne, show cexLines.length + 1 = 5 from rfl, cexGo5]
  rw [show cexLines.length = 4 from rfl, cexLens]
  norm_num [hr2, hr4, qget]
  norm_num [gl0, gl1, gl2, gl3, cexLine0, cexLine1, cexLine2, cexLine3, sortIdx,
    insertSorted, project2dTo1d, normed, cvNorm, sqrtQ, isqrtNat, isqrtAux, pt, qget,
    Point2f.sub_def, Point2f.add_def, Point2f.smul_def]
  norm_num [hr2, insertSorted]

/-- C1: the reading order returned by `getTextLinesReadingOrder` is not in
general a permutation of the line indices.  On the four lines above, the
pair scan first forms the group `{0, 1}`, then `{2, 3}`, and the later
accepted pair `(3, 0)` is merged into the first group containing either
line — the group of `0` — without removing line 3 from (or merging) the
group `{2, 3}`; line 3 then appears in two join groups and is emitted twice
(the returned order is `[2, 3, 3, 0, 1]`, of length 5 for 4 lines), so no
list of `TextEquiv`-ordered indices is produced. -/
theorem getTextLinesReadingOrder_not_permutation :
    getTextLinesReadingOrder cexLines (3/20) (3/20) (7/10) = [2, 3, 3, 0, 1] ∧
    ¬ (getTextLinesReadingOrder cexLines (3/20) (3/20) (7/10)).Perm
        (List.range cexLines.length) := by
  refine ⟨cexEval, ?_⟩
  rw [cexEval]
  intro hperm
  have hlen := hperm.length_eq
  simp [cexLines] at hlen

/-! ### C6: the four documented pair tests -/

/-- The acceptance condition for a directed pair as the specification states
it: baseline angle difference at most `maxAngleDiff`; `m`'s projected start
not behind `n`'s along the length-weighted shared horizontal axis; projected
1-D baseline IoU at most `maxHorizIoU`; every needed segment intersection
non-degenerate; and prolongation factor `0.8·bline + 0.2·coords` at least
`minProlongFact`. -/
def specPairAccept (ln lm : LineGeom) (maxAngleDiff maxHorizIoU minProlongFact : ℚ) : Prop :=
  fabsQ (angleDiff (angleOf ln) (angleOf lm)) ≤ maxAngleDiff ∧
  ¬ (pairDirect ln lm * qget (pairHm ln lm) 0 < pairDirect ln lm * qget (pairHn ln lm) 0) ∧
  IoU1d (qget (pairHn ln lm) 0) (qget (pairHn ln lm) 1)
    (qget (pairHm ln lm) 0) (qget (pairHm ln lm) 1) ≤ maxHorizIoU ∧
  ((pairI1 ln lm).1 = true ∧ (pairI2 ln lm).1 = true ∧ (pairI3 ln lm).1 = true ∧
    (pairI4 ln lm).1 = true ∧ (pairJ1 ln lm).1 = true ∧ (pairJ2 ln lm).1 = true) ∧
  minProlongFact ≤ pairProlong ln lm

set_option maxHeartbeats 1000000 in
theorem pairAccept_iff (ln lm : LineGeom) (maxA maxI minP : ℚ) :
    (pairContinuation ln lm maxA maxI minP).isSome = true ↔
      specPairAccept ln lm maxA maxI minP := by
  simp only [pairContinuation, specPairAccept]
  split_ifs <;> simp_all [not_lt]

/-- C6: in the directed-pair scan, a pair `(n, m)` with `n ≠ m` extends or
starts a join group (via `addPair`, with the prolongation factor as score
and the axis direction recorded) exactly when the four documented tests
pass and no needed segment intersection is degenerate; otherwise the scan
state is unchanged. -/
theorem pairTest_iff (lines : List LineGeom) (maxA maxI minP : ℚ) (st : GroupState)
    (n m : ℕ) (hnm : n ≠ m) :
    ((pairContinuation (lineAt lines n) (lineAt lines m) maxA maxI minP).isSome = true ↔
      specPairAccept (lineAt lines n) (lineAt lines m) maxA maxI minP) ∧
    (∀ pf d, pairContinuation (lineAt lines n) (lineAt lines m) maxA maxI minP = some (pf, d) →
      pairStep lines maxA maxI minP st n m = addPair st n m pf d) ∧
    (pairContinuation (lineAt lines n) (lineAt lines m) maxA maxI minP = none →
      pairStep lines maxA maxI minP st n m = st) := by
  refine ⟨pairAccept_iff _ _ _ _ _, ?_, ?_⟩
  · intro pf d h
    unfold pairStep
    rw [if_neg hnm, h]
  · intro h
    unfold pairStep
    rw [if_neg hnm, h]

theorem pairTest_iff_witness :
    ((pairContinuation (lineAt [] 0) (lineAt [] 1) 1 1 1).isSome = true ↔
      specPairAccept (lineAt [] 0) (lineAt [] 1) 1 1 1) ∧
    (∀ pf d, pairContinuation (lineAt [] 0) (lineAt [] 1) 1 1 1 = some (pf, d) →
      pairStep [] 1 1 1 ⟨[], [], [], []⟩ 0 1 = addPair ⟨[], [], [], []⟩ 0 1 pf d) ∧
    (pairContinuation (lineAt [] 0) (lineAt [] 1) 1 1 1 = none →
      pairStep [] 1 1 1 ⟨[], [], [], []⟩ 0 1 = ⟨[], [], [], []⟩) :=
  pairTest_iff [] 1 1 1 ⟨[], [], [], []⟩ 0 1 (by decide)

/-! ### C8: copyTextLinesAssignByOverlap

Model of the per-line assignment loop of `copyTextLinesAssignByOverlap`
(PageXML.cc:3475-3517).  The overlap scores are abstracted as one list of
rationals per source line (one entry per destination region, as produced by
the `computeIoUs`/`...WeightedByArea` helpers); the XML cloning is dropped
and only the chosen destination indices are tracked. -/

/-- `std::max_element` over a score vector: the scan keeps the earliest
index that no later element strictly exceeds (PageXML.cc:3504). -/
def maxElemIdx (l : List ℚ) : ℕ :=
  (List.range l.length).foldl (fun b j => if qget l b < qget l j then j else b) 0

/-- The per-line loop: each line is assigned the region of maximal score,
and the operation aborts with a ValidationError (`throw_runtime_error`
throws, PageXML.h:104-106) when the best score is `0` (PageXML.cc:3504-3506). -/
def assignLines : List (List ℚ) → Except Unit (List ℕ)
  | [] => Except.ok []
  | ov :: rest =>
    if qget ov (maxElemIdx ov) = 0 then Except.error ()
    else match assignLines rest with
      | Except.error e => Except.error e
      | Except.ok asgn => Except.ok (maxElemIdx ov :: asgn)

/-- One page of `copyTextLinesAssignByOverlap`: the assignments plus whether
the automatically added whole-page fallback region `fb` is removed at the
end (removed exactly when it was added on this page and no line was
assigned to it, PageXML.cc:3511-3512). -/
def pageAssign (scores : List (List ℚ)) (added : Bool) (fb : ℕ) :
    Except Unit (List ℕ × Bool) :=
  match assignLines scores with
  | Except.error e => Except.error e
  | Except.ok asgn => Except.ok (asgn, added && !(asgn.contains fb))

theorem qget_le_foldl (l : List ℚ) (js : List ℕ) (b : ℕ) :
    qget l b ≤ qget l (js.foldl (fun b2 j => if qget l b2 < qget l j then j else b2) b) := by
  induction js generalizing b with
  | nil => exact le_refl _
  | cons j js ih =>
    simp only [List.foldl_cons]
    refine le_trans ?_ (ih (if qget l b < qget l j then j else b))
    by_cases h : qget l b < qget l j
    · rw [if_pos h]; exact le_of_lt h
    · rw [if_neg h]

theorem mem_le_foldl (l : List ℚ) (js : List ℕ) (b : ℕ) :
    ∀ j ∈ js, qget l j ≤
      qget l (js.foldl (fun b2 j2 => if qget l b2 < qget l j2 then j2 else b2) b) := by
  induction js generalizing b with
  | nil => intro j hj; simp at hj
  | cons j0 js ih =>
    intro j hj
    simp only [List.foldl_cons]
    rcases List.mem_cons.mp hj with rfl | hj2
    · refine le_trans ?_ (qget_le_foldl l js _)
      by_cases h : qget l b < qget l j
      · rw [if_pos h]
      · rw [if_neg h]
        exact le_of_not_lt h
    · exact ih _ j hj2

/-- The chosen index attains the maximal score. -/
theorem maxElemIdx_attains (l : List ℚ) :
    ∀ j, j < l.length → qget l j ≤ qget l (maxElemIdx l) := by
  intro j hj
  exact mem_le_foldl l (List.range l.length) 0 j (List.mem_range.mpr hj)

theorem assignLines_error_iff (scores : List (List ℚ)) :
    assignLines scores = Except.error () ↔ ∃ ov ∈ scores, qget ov (maxElemIdx ov) = 0 := by
  induction scores with
  | nil => simp [assignLines]
  | cons ov rest ih =>
    by_cases h : qget ov (maxElemIdx ov) = 0
    · constructor
      · intro _
        exact ⟨ov, List.mem_cons_self _ _, h⟩
      · intro _
        simp [assignLines, if_pos h]
    · rcases e : assignLines rest with u | asgn
      · cases u
        constructor
        · intro _
          obtain ⟨ov2, hm, hz⟩ := ih.mp e
          exact ⟨ov2, List.mem_cons_of_mem _ hm, hz⟩
        · intro _
          simp [assignLines, if_neg h, e]
      · simp only [assignLines, if_neg h, e]
        constructor
        · intro hcontra
          simp at hcontra
        · rintro ⟨ov2, hm, hz⟩
          rcases List.mem_cons.mp hm with rfl | hm2
          · exact absurd hz h
          · have h2 : assignLines rest = Except.error () := ih.mpr ⟨ov2, hm2, hz⟩
            rw [h2] at e
            simp at e

theorem assignLines_ok (scores : List (List ℚ)) (asgn : List ℕ)
    (h : assignLines scores = Except.ok asgn) : asgn = scores.map maxElemIdx := by
  induction scores generalizing asgn with
  | nil =>
    simp only [assignLines, Except.ok.injEq] at h
    simp [← h]
  | cons ov rest ih =>
    by_cases hz : qget ov (maxElemIdx ov) = 0
    · simp [assignLines, hz] at h
    · rcases e : assignLines rest with u | a2
      · simp only [assignLines, if_neg hz, e] at h
        simp at h
      · simp only [assignLines, if_neg hz, e, Except.ok.injEq] at h
        rw [← h, List.map_cons, ih a2 e]

/-- C8: the per-line assignment fails exactly when some line has maximal
overlap score 0; on success every line is assigned to the destination
region attaining its maximal score (the first such region, as
`std::max_element` returns), and the whole-page fallback region is removed
exactly when it was added and no line was assigned to it. -/
theorem copyTextLines_assign_spec (scores : List (List ℚ)) (added : Bool) (fb : ℕ)
    (hne : ∀ ov ∈ scores, ov ≠ []) :
    ((∃ ov ∈ scores, qget ov (maxElemIdx ov) = 0) ↔
      pageAssign scores added fb = Except.error ()) ∧
    (∀ asgn removed, pageAssign scores added fb = Except.ok (asgn, removed) →
      asgn = scores.map maxElemIdx ∧
      (∀ i, i < scores.length → ∀ j, j < (scores.getD i []).length →
        qget (scores.getD i []) j ≤ qget (scores.getD i []) (maxElemIdx (scores.getD i []))) ∧
      removed = (added && !(asgn.contains fb))) := by
  constructor
  · rw [← assignLines_error_iff]
    rcases e : assignLines scores with u | asgn
    · cases u
      simp [pageAssign, e]
    · simp [pageAssign, e]
  · intro asgn removed h
    rcases e : assignLines scores with u | a2
    · rw [pageAssign, e] at h
      simp at h
    · rw [pageAssign, e] at h
      simp only [Except.ok.injEq, Prod.mk.injEq] at h
      refine ⟨?_, ?_, ?_⟩
      · rw [← h.1]
        exact assignLines_ok scores a2 e
      · intro i _ j hj
        exact maxElemIdx_attains _ j hj
      · rw [← h.1, ← h.2]

theorem copyTextLines_assign_spec_witness :
    (∀ ov ∈ [[(0 : ℚ), 2], [1, 0]], ov ≠ []) ∧
    (((∃ ov ∈ [[(0 : ℚ), 2], [1, 0]], qget ov (maxElemIdx ov) = 0) ↔
      pageAssign [[(0 : ℚ), 2], [1, 0]] true 0 = Except.error ()) ∧
    (∀ asgn removed, pageAssign [[(0 : ℚ), 2], [1, 0]] true 0 = Except.ok (asgn, removed) →
      asgn = [[(0 : ℚ), 2], [1, 0]].map maxElemIdx ∧
      (∀ i, i < ([[(0 : ℚ), 2], [1, 0]] : List (List ℚ)).length →
        ∀ j, j < (([[(0 : ℚ), 2], [1, 0]] : List (List ℚ)).getD i []).length →
        qget (([[(0 : ℚ), 2], [1, 0]] : List (List ℚ)).getD i []) j ≤
          qget (([[(0 : ℚ), 2], [1, 0]] : List (List ℚ)).getD i [])
            (maxElemIdx (([[(0 : ℚ), 2], [1, 0]] : List (List ℚ)).getD i []))) ∧
      removed = (true && !(asgn.contains 0)))) := by
  have hne : ∀ ov ∈ [[(0 : ℚ), 2], [1, 0]], ov ≠ [] := by
    intro ov hv
    simp only [List.mem_cons, List.not_mem_nil, or_false] at hv
    rcases hv with rfl | rfl <;> simp
  exact ⟨hne, copyTextLines_assign_spec [[(0 : ℚ), 2], [1, 0]] true 0 hne⟩
